import Mathlib

/-!
# Verification of the layout/graph core of obsidian-ai-canvas-architect

Shallow embedding of the computational core of the repository:

* geometry value objects (`Coordinate`, `Dimension`, from
  `src/core/domain/value-objects/coordinate.ts` and `dimension.ts`),
* canvas node/edge entities and the `CanvasGraph` container
  (`src/core/domain/entities/canvas-node.ts`, `canvas-edge.ts`,
  `canvas-graph.ts`),
* the MDS projection engine and the DBSCAN clustering engine
  (`src/core/domain/services/mds-algorithm.ts`, `dbscan-algorithm.ts`),
* the canvas builder service
  (`src/core/application/services/canvas-builder.service.ts`).

Modelling conventions:

* JavaScript `number` is modelled as `ℚ`.  `Math.sqrt` is not rational, so
  every function whose source calls `Math.sqrt` takes an explicit oracle
  `sq : ℚ → ℚ` standing for the square-root function; the theorems below
  hold for every such oracle, so in particular for the real square root.
* `Math.random()` is modelled by an injected stream `rand : ℕ → ℚ`
  (the source design notes already call for an injectable random source).
* A JavaScript `Map` is an insertion-ordered association list:
  `set` overwrites in place when the key is present and appends otherwise;
  `delete` removes; `size` is the length; iteration is in list order.
* `throw` in a method that otherwise mutates `this` is modelled by
  returning the unchanged state together with `Option String`
  (the error message), or by `Except String` for pure computations.
* The `Date.now()` component of generated ids is dropped: fresh ids are
  generated from an explicit counter, `prefix ++ "-" ++ toString k`.
-/

namespace CanvasArchitect


/-! ## Geometry value objects -/

/-- `Coordinate` from `src/core/domain/value-objects/coordinate.ts`:
an immutable 2D position. -/
structure Coordinate where
  x : ℚ
  y : ℚ
deriving DecidableEq, Repr

namespace Coordinate

/-- `Coordinate.origin()`. -/
def origin : Coordinate := ⟨0, 0⟩

/-- `add` (vector addition). -/
def add (a b : Coordinate) : Coordinate := ⟨a.x + b.x, a.y + b.y⟩

/-- `subtract`. -/
def subtract (a b : Coordinate) : Coordinate := ⟨a.x - b.x, a.y - b.y⟩

/-- `scale`. -/
def scale (a : Coordinate) (factor : ℚ) : Coordinate := ⟨a.x * factor, a.y * factor⟩

/-- `midpoint`. -/
def midpoint (a b : Coordinate) : Coordinate := ⟨(a.x + b.x) / 2, (a.y + b.y) / 2⟩

/-- `offset`. -/
def offset (a : Coordinate) (dx dy : ℚ) : Coordinate := ⟨a.x + dx, a.y + dy⟩

/-- `distanceTo` computes `Math.sqrt (dx*dx + dy*dy)`; `sq` is the
square-root oracle. -/
def distanceTo (sq : ℚ → ℚ) (a b : Coordinate) : ℚ :=
  sq ((a.x - b.x) * (a.x - b.x) + (a.y - b.y) * (a.y - b.y))

end Coordinate

/-- `Dimension` from `src/core/domain/value-objects/dimension.ts`:
width and height of a canvas element.  The TypeScript constructor throws on
negative values; `Dimension.make` below models the constructor. -/
structure Dimension where
  width : ℚ
  height : ℚ
deriving DecidableEq, Repr

namespace Dimension

/-- The `Dimension` constructor: throws (`none`) when either value is
negative. -/
def make (width height : ℚ) : Option Dimension :=
  if width < 0 ∨ height < 0 then none else some ⟨width, height⟩

/-- `Dimension.defaultNode()`. -/
def defaultNode : Dimension := ⟨250, 150⟩

end Dimension

/-! ## Canvas nodes

`src/core/domain/entities/canvas-node.ts` defines the class hierarchy
`FileNode` / `TextNode` / `GroupNode` over the abstract `CanvasNode`.
The spec (§9) asks for a tagged-union model; each variant carries the
shared fields (id, position, dimension, optional color) plus its payload.
A `NodeColor` is represented by its string value.  No `link`-typed node
class exists in the source, so the union has three variants. -/

inductive CanvasNode where
  | file (id : String) (position : Coordinate) (dimension : Dimension)
      (filePath : String) (color : Option String)
  | text (id : String) (position : Coordinate) (dimension : Dimension)
      (textContent : String) (color : Option String)
  | group (id : String) (position : Coordinate) (dimension : Dimension)
      (label : Option String) (color : Option String)
deriving DecidableEq, Repr

/-- The `type` discriminator string of a node. -/
inductive NodeKind where
  | file | text | group
deriving DecidableEq, Repr

namespace CanvasNode

/-- The node's unique id. -/
def id : CanvasNode → String
  | .file i _ _ _ _ => i
  | .text i _ _ _ _ => i
  | .group i _ _ _ _ => i

/-- The node's `type` field. -/
def kind : CanvasNode → NodeKind
  | .file .. => .file
  | .text .. => .text
  | .group .. => .group

/-- The node's (mutable) position. -/
def position : CanvasNode → Coordinate
  | .file _ p _ _ _ => p
  | .text _ p _ _ _ => p
  | .group _ p _ _ _ => p

/-- The node's dimension. -/
def dimension : CanvasNode → Dimension
  | .file _ _ d _ _ => d
  | .text _ _ d _ _ => d
  | .group _ _ d _ _ => d

/-- Replace the node's position (`moveTo`). -/
def moveTo (n : CanvasNode) (p : Coordinate) : CanvasNode :=
  match n with
  | .file i _ d f c => .file i p d f c
  | .text i _ d t c => .text i p d t c
  | .group i _ d l c => .group i p d l c

/-- `moveBy`: offset the node's position. -/
def moveBy (n : CanvasNode) (dx dy : ℚ) : CanvasNode :=
  n.moveTo (n.position.offset dx dy)

/-- `center`: centre of the node's bounding box. -/
def center (n : CanvasNode) : Coordinate :=
  ⟨n.position.x + n.dimension.width / 2, n.position.y + n.dimension.height / 2⟩

/-- `bounds.topLeft`. -/
def topLeft (n : CanvasNode) : Coordinate := n.position

/-- `bounds.bottomRight`. -/
def bottomRight (n : CanvasNode) : Coordinate :=
  ⟨n.position.x + n.dimension.width, n.position.y + n.dimension.height⟩

/-- `overlaps`: axis-aligned bounding-box intersection test (touching
boxes count as overlapping, exactly as in the source's negated strict
comparisons). -/
def overlaps (a b : CanvasNode) : Bool :=
  !(a.bottomRight.x < b.topLeft.x ∨ b.bottomRight.x < a.topLeft.x ∨
    a.bottomRight.y < b.topLeft.y ∨ b.bottomRight.y < a.topLeft.y)

end CanvasNode

/-- `generateNodeId` from `canvas-node.ts`, with the `Date.now()`
component dropped: the fresh id is `pre ++ "-" ++ toString counter` and
the counter is incremented (the source increments before use). -/
def generateNodeId (pre : String) (counter : ℕ) : String × ℕ :=
  (pre ++ "-" ++ toString (counter + 1), counter + 1)

/-! ## Canvas edges -/

/-- `CanvasEdge` from `src/core/domain/entities/canvas-edge.ts`.
`EdgeSide` / `EdgeEnd` values are represented by their strings. -/
structure CanvasEdge where
  id : String
  fromNode : String
  toNode : String
  fromSide : Option String := none
  toSide : Option String := none
  fromEnd : Option String := none
  toEnd : Option String := none
  color : Option String := none
  label : Option String := none
deriving DecidableEq, Repr

/-- `generateEdgeId()` from `canvas-edge.ts`, `Date.now()` dropped. -/
def generateEdgeId (counter : ℕ) : String × ℕ :=
  ("edge-" ++ toString (counter + 1), counter + 1)

namespace CanvasEdge

/-- Options bag accepted by the `CanvasEdge` factory methods. -/
structure Options where
  fromSide : Option String := none
  toSide : Option String := none
  fromEnd : Option String := none
  toEnd : Option String := none
  color : Option String := none
  label : Option String := none

/-- `CanvasEdge.create`: fresh id, `toEnd` defaults to `"arrow"`. -/
def create (fromNode toNode : String) (options : Options) (counter : ℕ) :
    CanvasEdge × ℕ :=
  let (eid, c) := generateEdgeId counter
  (⟨eid, fromNode, toNode, options.fromSide, options.toSide, options.fromEnd,
    some (options.toEnd.getD "arrow"), options.color, options.label⟩, c)

/-- `CanvasEdge.createConnection`: fresh id, no arrows on either end. -/
def createConnection (fromNode toNode : String) (options : Options)
    (counter : ℕ) : CanvasEdge × ℕ :=
  let (eid, c) := generateEdgeId counter
  (⟨eid, fromNode, toNode, options.fromSide, options.toSide, some "none",
    some "none", options.color, options.label⟩, c)

/-- `connects`: does this edge connect the two given nodes (either
direction)? -/
def connects (e : CanvasEdge) (nodeA nodeB : String) : Bool :=
  (e.fromNode = nodeA ∧ e.toNode = nodeB) ∨ (e.fromNode = nodeB ∧ e.toNode = nodeA)

/-- `involves`: does this edge touch the given node? -/
def involves (e : CanvasEdge) (nodeId : String) : Bool :=
  e.fromNode = nodeId ∨ e.toNode = nodeId

end CanvasEdge

/-! ## The canvas graph container

`CanvasGraph` owns two JavaScript `Map`s, modelled as insertion-ordered
association lists keyed by `.id`. -/

/-- JavaScript `Map.set` keyed by `key`: overwrite in place if the key is
present, append otherwise. -/
def mapSet {α : Type} (key : α → String) (l : List α) (a : α) : List α :=
  match l with
  | [] => [a]
  | b :: bs => if key b = key a then a :: bs else b :: mapSet key bs a

/-- JavaScript `Map.delete` keyed by `key`. -/
def mapDelete {α : Type} (key : α → String) (l : List α) (k : String) : List α :=
  l.filter (fun a => key a ≠ k)

/-- Does the map contain the key? -/
def mapHas {α : Type} (key : α → String) (l : List α) (k : String) : Bool :=
  l.any (fun a => key a = k)

structure CanvasGraph where
  nodes : List CanvasNode
  edges : List CanvasEdge
deriving DecidableEq, Repr

namespace CanvasGraph

/-- `new CanvasGraph()`. -/
def empty : CanvasGraph := ⟨[], []⟩

/-- `addNode`: `this.nodes.set(node.id, node)`. -/
def addNode (g : CanvasGraph) (n : CanvasNode) : CanvasGraph :=
  { g with nodes := mapSet CanvasNode.id g.nodes n }

/-- `addNodes`: add in order. -/
def addNodes (g : CanvasGraph) (ns : List CanvasNode) : CanvasGraph :=
  ns.foldl addNode g

/-- `removeNode`: if absent return `false`; otherwise delete every edge
involving the node, then delete the node, returning `true`. -/
def removeNode (g : CanvasGraph) (nodeId : String) : CanvasGraph × Bool :=
  if mapHas CanvasNode.id g.nodes nodeId then
    ({ nodes := mapDelete CanvasNode.id g.nodes nodeId,
       edges := g.edges.filter (fun e => ¬ e.involves nodeId) }, true)
  else (g, false)

/-- `addEdge`: throws when either endpoint id is not a node of the graph.
The thrown error is returned as `some message` and the graph is returned
unchanged (a JavaScript `throw` leaves `this` untouched). -/
def addEdge (g : CanvasGraph) (e : CanvasEdge) : CanvasGraph × Option String :=
  if ¬ mapHas CanvasNode.id g.nodes e.fromNode ∨
     ¬ mapHas CanvasNode.id g.nodes e.toNode then
    (g, some ("Cannot add edge: nodes " ++ e.fromNode ++ " or " ++ e.toNode ++
      " not found"))
  else ({ g with edges := mapSet CanvasEdge.id g.edges e }, none)

/-- `addEdges`: add in order; the first throw aborts the loop (edges added
before the throw stay added) and propagates. -/
def addEdges (g : CanvasGraph) : List CanvasEdge → CanvasGraph × Option String
  | [] => (g, none)
  | e :: es =>
    match addEdge g e with
    | (g', none) => addEdges g' es
    | (g', some msg) => (g', some msg)

/-- `removeEdge`. -/
def removeEdge (g : CanvasGraph) (edgeId : String) : CanvasGraph :=
  { g with edges := mapDelete CanvasEdge.id g.edges edgeId }

/-- `clear`. -/
def clear (_ : CanvasGraph) : CanvasGraph := empty

/-- `nodeCount`. -/
def nodeCount (g : CanvasGraph) : ℕ := g.nodes.length

/-- `edgeCount`. -/
def edgeCount (g : CanvasGraph) : ℕ := g.edges.length

/-- Is `nodeId` a node of the graph? -/
def hasNode (g : CanvasGraph) (nodeId : String) : Bool :=
  mapHas CanvasNode.id g.nodes nodeId

end CanvasGraph

/-! ## Graph operations as a datatype (for the invariant claim C2) -/

/-- One public mutating operation on a `CanvasGraph`. -/
inductive GraphOp where
  | addNode (n : CanvasNode)
  | addNodes (ns : List CanvasNode)
  | addEdge (e : CanvasEdge)
  | addEdges (es : List CanvasEdge)
  | removeNode (id : String)
  | removeEdge (id : String)
  | clear

/-- Apply one operation (return values / thrown errors discarded; a thrown
`addEdge` leaves the graph as it was at the point of the throw). -/
def applyOp (g : CanvasGraph) : GraphOp → CanvasGraph
  | .addNode n => g.addNode n
  | .addNodes ns => g.addNodes ns
  | .addEdge e => (g.addEdge e).1
  | .addEdges es => (g.addEdges es).1
  | .removeNode i => (g.removeNode i).1
  | .removeEdge i => g.removeEdge i
  | .clear => g.clear

/-- Run a sequence of operations from the empty graph. -/
def runOps (ops : List GraphOp) : CanvasGraph :=
  ops.foldl applyOp CanvasGraph.empty

/-- Referential integrity: both endpoints of every stored edge are nodes
of the same graph. -/
def EdgesClosed (g : CanvasGraph) : Prop :=
  ∀ e ∈ g.edges, g.hasNode e.fromNode ∧ g.hasNode e.toNode

/-- Sample nodes/edges/graph used to instantiate the graph theorems. -/
def sampleNodeA : CanvasNode :=
  .file "n1" Coordinate.origin Dimension.defaultNode "a.md" none

def sampleNodeB : CanvasNode :=
  .file "n2" Coordinate.origin Dimension.defaultNode "b.md" none

def sampleEdgeAB : CanvasEdge :=
  { id := "e1", fromNode := "n1", toNode := "n2" }

def sampleGraph : CanvasGraph :=
  { nodes := [sampleNodeA, sampleNodeB], edges := [sampleEdgeAB] }

/-! ## Serialization to / parsing from the Obsidian canvas format (C1)

`toCanvasFormat` emits nodes as plain JSON objects; `fromJSON` /
`parseNode` / `parseEdge` read them back.  A serialized node/edge is
modelled as a record of optional fields (a missing JSON field is `none`).
JavaScript truthiness on strings (`if (this.label)`) treats both
`undefined` and `""` as falsy. -/

/-- Is an optional string truthy in the JavaScript sense? -/
def strTruthy : Option String → Bool
  | none => false
  | some s => s ≠ ""

/-- Truthiness-filtered emission: emit the field only when truthy. -/
def emitTruthy (o : Option String) : Option String :=
  if strTruthy o then o else none

/-- A serialized canvas node (one entry of `CanvasGraphData.nodes`). -/
structure NodeData where
  id : Option String := none
  type : Option String := none
  x : Option ℚ := none
  y : Option ℚ := none
  width : Option ℚ := none
  height : Option ℚ := none
  file : Option String := none
  text : Option String := none
  label : Option String := none
  color : Option String := none
deriving DecidableEq, Repr

/-- A serialized canvas edge (one entry of `CanvasGraphData.edges`). -/
structure EdgeData where
  id : Option String := none
  fromNode : Option String := none
  toNode : Option String := none
  fromSide : Option String := none
  toSide : Option String := none
  fromEnd : Option String := none
  toEnd : Option String := none
  color : Option String := none
  label : Option String := none
deriving DecidableEq, Repr

/-- The nested external structure `CanvasGraphData`. -/
structure CanvasGraphData where
  nodes : List NodeData
  edges : List EdgeData
deriving DecidableEq, Repr

/-- `CanvasNode.toCanvasFormat` (per variant in `canvas-node.ts`): always
emits id/type/x/y/width/height plus the variant payload; `label` only when
truthy, `color` whenever present (a `NodeColor` object is always truthy). -/
def CanvasNode.toCanvasFormat : CanvasNode → NodeData
  | .file i p d f c =>
    { id := some i, type := some "file", x := some p.x, y := some p.y,
      width := some d.width, height := some d.height, file := some f,
      color := c }
  | .text i p d t c =>
    { id := some i, type := some "text", x := some p.x, y := some p.y,
      width := some d.width, height := some d.height, text := some t,
      color := c }
  | .group i p d l c =>
    { id := some i, type := some "group", x := some p.x, y := some p.y,
      width := some d.width, height := some d.height, label := emitTruthy l,
      color := c }

/-- `CanvasEdge.toCanvasFormat`: id/fromNode/toNode always; the remaining
string fields only when truthy. -/
def CanvasEdge.toCanvasFormat (e : CanvasEdge) : EdgeData :=
  { id := some e.id, fromNode := some e.fromNode, toNode := some e.toNode,
    fromSide := emitTruthy e.fromSide, toSide := emitTruthy e.toSide,
    fromEnd := emitTruthy e.fromEnd, toEnd := emitTruthy e.toEnd,
    color := emitTruthy e.color, label := emitTruthy e.label }

namespace CanvasGraph

/-- `CanvasGraph.toCanvasFormat`: groups first, then the other nodes, then
the edges. -/
def toCanvasFormat (g : CanvasGraph) : CanvasGraphData :=
  { nodes := ((g.nodes.filter (fun n => n.kind = .group)) ++
      (g.nodes.filter (fun n => n.kind ≠ .group))).map CanvasNode.toCanvasFormat,
    edges := g.edges.map CanvasEdge.toCanvasFormat }

/-- `CanvasGraph.parseNode`: reads one serialized node.  Missing `x`/`y`
default to 0, missing `width`/`height` to 250/150; the `Dimension`
constructor throw is caught by the surrounding `try` (`none`).  `file` and
`text` nodes are rebuilt through `FileNode.create` / `TextNode.create`,
which generate a **fresh** id from the id counter; only `group` nodes keep
the serialized id (falling back to a fresh `group-` id when it is
missing).  Unknown or missing `type` yields `none`. -/
def parseNode (data : NodeData) (counter : ℕ) : Option CanvasNode × ℕ :=
  let position : Coordinate := ⟨data.x.getD 0, data.y.getD 0⟩
  match Dimension.make (data.width.getD 250) (data.height.getD 150) with
  | none => (none, counter)
  | some dimension =>
    match data.type with
    | some "file" =>
      let (nid, c') := generateNodeId "file" counter
      (some (.file nid position dimension (data.file.getD "") none), c')
    | some "text" =>
      let (nid, c') := generateNodeId "text" counter
      (some (.text nid position dimension (data.text.getD "") none), c')
    | some "group" =>
      match data.id with
      | some i =>
        (some (.group i position dimension (some (data.label.getD "")) none),
          counter)
      | none =>
        let (nid, c') := generateNodeId "group" counter
        (some (.group nid position dimension (some (data.label.getD "")) none),
          c')
    | _ => (none, counter)

/-- `CanvasGraph.parseEdge`: requires truthy `fromNode` and `toNode`,
then rebuilds the edge through `CanvasEdge.create` (fresh edge id,
`toEnd` defaulting to `"arrow"`). -/
def parseEdge (data : EdgeData) (counter : ℕ) : Option CanvasEdge × ℕ :=
  if strTruthy data.fromNode ∧ strTruthy data.toNode then
    let (e, c') := CanvasEdge.create (data.fromNode.getD "") (data.toNode.getD "")
      { label := data.label, fromSide := data.fromSide, toSide := data.toSide,
        fromEnd := data.fromEnd, toEnd := data.toEnd, color := data.color }
      counter
    (some e, c')
  else (none, counter)

/-- The node-parsing loop of `fromJSON`: parse each entry, adding the
successfully parsed nodes in order. -/
def fromJSONNodes (g : CanvasGraph) : List NodeData → ℕ → CanvasGraph × ℕ
  | [], c => (g, c)
  | nd :: nds, c =>
    match parseNode nd c with
    | (some n, c') => fromJSONNodes (g.addNode n) nds c'
    | (none, c') => fromJSONNodes g nds c'

/-- The edge-parsing loop of `fromJSON`: parse each entry and `addEdge`
it, ignoring the thrown error when an endpoint is missing. -/
def fromJSONEdges (g : CanvasGraph) : List EdgeData → ℕ → CanvasGraph × ℕ
  | [], c => (g, c)
  | ed :: eds, c =>
    match parseEdge ed c with
    | (some e, c') => fromJSONEdges (g.addEdge e).1 eds c'
    | (none, c') => fromJSONEdges g eds c'

/-- `CanvasGraph.fromJSON`.  The two mutable id counters
(`nodeIdCounter`, `edgeIdCounter`) are passed explicitly. -/
def fromJSON (data : CanvasGraphData) (nodeCounter edgeCounter : ℕ) :
    CanvasGraph :=
  let (g1, _) := fromJSONNodes CanvasGraph.empty data.nodes nodeCounter
  (fromJSONEdges g1 data.edges edgeCounter).1

end CanvasGraph

/-- The list of successfully parsed nodes of a serialized node list,
threading the id counter (the order in which `fromJSON` adds them). -/
def parseNodesList : List NodeData → ℕ → List CanvasNode × ℕ
  | [], c => ([], c)
  | nd :: nds, c =>
    match CanvasGraph.parseNode nd c with
    | (some n, c') =>
      let (rest, c'') := parseNodesList nds c'
      (n :: rest, c'')
    | (none, c') => parseNodesList nds c'

/-- The list of successfully parsed edges of a serialized edge list,
threading the edge-id counter (the order in which `fromJSON` tries to add
them). -/
def parseEdgesList : List EdgeData → ℕ → List CanvasEdge × ℕ
  | [], c => ([], c)
  | ed :: eds, c =>
    match CanvasGraph.parseEdge ed c with
    | (some e, c') =>
      let (rest, c'') := parseEdgesList eds c'
      (e :: rest, c'')
    | (none, c') => parseEdgesList eds c'

/-- Number of nodes of a given type in a node list. -/
def countKind (k : NodeKind) (l : List CanvasNode) : ℕ :=
  (l.filter (fun n => n.kind = k)).length

/-- The ids of the group nodes of a graph. -/
def groupIds (g : CanvasGraph) : List String :=
  (g.nodes.filter (fun n => n.kind = .group)).map CanvasNode.id

/-- Derived description of one reparsed node: `file`/`text` nodes keep
their geometry and payload but receive a fresh id and lose their color;
`group` nodes keep their id. -/
def reparseNode (n : CanvasNode) (c : ℕ) : CanvasNode × ℕ :=
  match n with
  | .file _ p d f _ => (.file ("file-" ++ toString (c + 1)) p d f none, c + 1)
  | .text _ p d t _ => (.text ("text-" ++ toString (c + 1)) p d t none, c + 1)
  | .group i p d l _ => (.group i p d (some ((emitTruthy l).getD "")) none, c)

/-- Derived description of a reparsed node list. -/
def reparseNodes : List CanvasNode → ℕ → List CanvasNode × ℕ
  | [], c => ([], c)
  | n :: ns, c =>
    let (n', c') := reparseNode n c
    let (rest, c'') := reparseNodes ns c'
    (n' :: rest, c'')

/-- A concrete graph with two group nodes, one file node and one
group-to-group edge, used to instantiate the round-trip theorem. -/
def sampleRTGraph : CanvasGraph :=
  { nodes := [.group "g1" ⟨0, 0⟩ ⟨100, 100⟩ (some "L1") none,
              .group "g2" ⟨500, 0⟩ ⟨100, 100⟩ none none,
              sampleNodeA],
    edges := [{ id := "e9", fromNode := "g1", toNode := "g2" }] }

/-! ## Canvas builder service

`src/core/application/services/canvas-builder.service.ts`. -/

/-- `NoteEmbedding` from
`src/core/domain/interfaces/canvas-repository.interface.ts`. -/
structure NoteEmbedding where
  noteId : String
  title : String
  path : String
  vector : List ℚ
deriving DecidableEq, Repr

instance : Inhabited NoteEmbedding := ⟨⟨"", "", "", []⟩⟩

instance : Inhabited CanvasNode :=
  ⟨.file "" Coordinate.origin ⟨0, 0⟩ "" none⟩

/-- `CanvasBuilderOptions` with the source's `DEFAULT_OPTIONS`. -/
structure CanvasBuilderOptions where
  canvasWidth : ℚ := 2000
  canvasHeight : ℚ := 1500
  nodeWidth : ℚ := 250
  nodeHeight : ℚ := 150
  padding : ℚ := 100
  clusterEps : ℚ := 200
  clusterMinPts : ℕ := 2
  edgeThreshold : ℚ := 7/10
  groupPadding : ℚ := 30

/-- `Math.round` (and `toFixed(0)`): floor of `q + 1/2` (ECMAScript picks
the larger of two equally near integers). -/
def jsRound (q : ℚ) : ℤ := ⌊q + 1/2⌋

/-- Shared loop body of both cosine-similarity implementations (only ever
run after the length check): dot product and the two vector norms, then
the zero-norm fallback. -/
def cosineSimilarityCore (sq : ℚ → ℚ) (a b : List ℚ) : ℚ :=
  let dotProduct := (List.zipWith (· * ·) a b).sum
  let normA := sq ((List.zipWith (· * ·) a a).sum)
  let normB := sq ((List.zipWith (· * ·) b b).sum)
  if normA = 0 ∨ normB = 0 then 0 else dotProduct / (normA * normB)

/-- `CanvasBuilderService.cosineSimilarity`: on a length mismatch it
returns 0 (no error). -/
def builderCosineSimilarity (sq : ℚ → ℚ) (a b : List ℚ) : ℚ :=
  if a.length ≠ b.length then 0 else cosineSimilarityCore sq a b

/-- `Map.get` on a string-keyed map. -/
def mapGet {α : Type} (m : List (String × α)) (k : String) : Option α :=
  (m.find? (fun p => p.1 = k)).map (·.2)

/-- The double loop `for i; for j = i+1` as a list of index pairs in
iteration order. -/
def pairIndices (n : ℕ) : List (ℕ × ℕ) :=
  (List.range n).flatMap
    (fun i => ((List.range n).filter (fun j => i < j)).map (fun j => (i, j)))

/-- The normalized pair key `[a, b].sort().join('-')`. -/
def pairKey (a b : String) : String :=
  if a ≤ b then a ++ "-" ++ b else b ++ "-" ++ a

/-- The label `` `${(similarity * 100).toFixed(0)}%` ``. -/
def percentLabel (similarity : ℚ) : String :=
  toString (jsRound (similarity * 100)) ++ "%"

/-- Mutable state of the `createEdges` loop: the edge accumulator, the
`processed` key set (insertion order), and the edge-id counter. -/
structure EdgeBuildState where
  edges : List CanvasEdge
  processed : List String
  counter : ℕ

/-- One iteration of the `createEdges` double loop at indices `(i, j)`. -/
def createEdgesStep (sq : ℚ → ℚ) (notes : List NoteEmbedding)
    (nodeMap : List (String × CanvasNode)) (threshold : ℚ)
    (st : EdgeBuildState) (ij : ℕ × ℕ) : EdgeBuildState :=
  let similarity := builderCosineSimilarity sq (notes.getD ij.1 default).vector
    (notes.getD ij.2 default).vector
  if threshold ≤ similarity then
    match mapGet nodeMap (notes.getD ij.1 default).noteId,
        mapGet nodeMap (notes.getD ij.2 default).noteId with
    | some nodeA, some nodeB =>
      let key := pairKey nodeA.id nodeB.id
      if key ∈ st.processed then st
      else
        let (e, c') := CanvasEdge.createConnection nodeA.id nodeB.id
          { label := some (percentLabel similarity) } st.counter
        ⟨st.edges ++ [e], st.processed ++ [key], c'⟩
    | _, _ => st
  else st

/-- `CanvasBuilderService.createEdges`, with the edge-id counter passed
explicitly. -/
def createEdges (sq : ℚ → ℚ) (notes : List NoteEmbedding)
    (nodeMap : List (String × CanvasNode)) (threshold : ℚ) (counter : ℕ) :
    List CanvasEdge × ℕ :=
  let st := (pairIndices notes.length).foldl
    (createEdgesStep sq notes nodeMap threshold) ⟨[], [], counter⟩
  (st.edges, st.counter)

/-- One iteration of the `resolveOverlaps` inner double loop at `(i, j)`:
if the boxes overlap, push both nodes apart; coincident centres get a
random jitter (two draws from `rand`, indexed by the draw counter). -/
def resolvePassStep (sq : ℚ → ℚ) (rand : ℕ → ℚ) (minDistance : ℚ)
    (st : List CanvasNode × ℕ × Bool) (ij : ℕ × ℕ) :
    List CanvasNode × ℕ × Bool :=
  let nodes := st.1
  let nodeA := nodes.getD ij.1 default
  let nodeB := nodes.getD ij.2 default
  if nodeA.overlaps nodeB then
    let dx0 := nodeB.center.x - nodeA.center.x
    let dy0 := nodeB.center.y - nodeA.center.y
    let (dx, dy, k') :=
      if dx0 = 0 ∧ dy0 = 0 then
        ((rand st.2.1 - 1/2) * 10, (rand (st.2.1 + 1) - 1/2) * 10, st.2.1 + 2)
      else (dx0, dy0, st.2.1)
    let distance := sq (dx * dx + dy * dy)
    let pushDistance := (minDistance - distance) / 2 + 10
    let pushX := dx / distance * pushDistance
    let pushY := dy / distance * pushDistance
    ((nodes.set ij.1 (nodeA.moveBy (-pushX) (-pushY))).set ij.2
      (nodeB.moveBy pushX pushY), k', true)
  else st

/-- One full pass of `resolveOverlaps` over all pairs; the Boolean is the
`hasOverlap` flag of the pass. -/
def resolvePass (sq : ℚ → ℚ) (rand : ℕ → ℚ) (minDistance : ℚ)
    (nodes : List CanvasNode) (k : ℕ) : List CanvasNode × ℕ × Bool :=
  (pairIndices nodes.length).foldl (resolvePassStep sq rand minDistance)
    (nodes, k, false)

/-- The bounded iteration of `resolveOverlaps`: run passes until one
reports no overlap or the iteration budget is exhausted. -/
def resolveOverlapsLoop (sq : ℚ → ℚ) (rand : ℕ → ℚ) (minDistance : ℚ) :
    ℕ → List CanvasNode → ℕ → List CanvasNode
  | 0, nodes, _ => nodes
  | iter + 1, nodes, k =>
    let r := resolvePass sq rand minDistance nodes k
    if r.2.2 then resolveOverlapsLoop sq rand minDistance iter r.1 r.2.1
    else r.1

/-- `CanvasBuilderService.resolveOverlaps` (default 10 iterations);
`minDistance = max(nodeWidth, nodeHeight) + 20`. -/
def resolveOverlaps (sq : ℚ → ℚ) (rand : ℕ → ℚ)
    (opts : CanvasBuilderOptions) (nodes : List CanvasNode)
    (iterations : ℕ := 10) : List CanvasNode :=
  resolveOverlapsLoop sq rand (max opts.nodeWidth opts.nodeHeight + 20)
    iterations nodes 0

/-- Two distant concrete nodes for the overlap-resolution witness. -/
def sampleDistantNodes : List CanvasNode :=
  [.file "d1" ⟨0, 0⟩ ⟨100, 100⟩ "a.md" none,
   .file "d2" ⟨1000, 0⟩ ⟨100, 100⟩ "b.md" none]

/-! ### Edge derivation (C7): definitions used in the statements -/

/-- The similarity computed by `createEdges` for the note pair `(i, j)`. -/
def noteSim (sq : ℚ → ℚ) (notes : List NoteEmbedding) (i j : ℕ) : ℚ :=
  builderCosineSimilarity sq (notes.getD i default).vector
    (notes.getD j default).vector

/-- The node looked up by `createEdges` for the note at index `i`. -/
def noteNode (notes : List NoteEmbedding)
    (nodeMap : List (String × CanvasNode)) (i : ℕ) : Option CanvasNode :=
  mapGet nodeMap (notes.getD i default).noteId

/-- All node ids reachable through the node map from the note list. -/
def mappedIds (notes : List NoteEmbedding)
    (nodeMap : List (String × CanvasNode)) : List String :=
  notes.filterMap (fun note => (mapGet nodeMap note.noteId).map CanvasNode.id)

/-- Loop invariant of the `createEdges` fold: every accumulated edge has
its key in `processed`, endpoints among the mapped ids, and originates
from a qualifying pair; every processed key belongs to some accumulated
edge; and no two accumulated edges connect the same unordered pair. -/
def EdgeInv (sq : ℚ → ℚ) (notes : List NoteEmbedding)
    (nodeMap : List (String × CanvasNode)) (t : ℚ)
    (st : EdgeBuildState) : Prop :=
  (∀ e ∈ st.edges,
    pairKey e.fromNode e.toNode ∈ st.processed ∧
    e.fromNode ∈ mappedIds notes nodeMap ∧
    e.toNode ∈ mappedIds notes nodeMap ∧
    ∃ i j A B, i < j ∧ j < notes.length ∧ t ≤ noteSim sq notes i j ∧
      noteNode notes nodeMap i = some A ∧ noteNode notes nodeMap j = some B ∧
      e.fromNode = A.id ∧ e.toNode = B.id) ∧
  (∀ k ∈ st.processed,
    ∃ e ∈ st.edges, pairKey e.fromNode e.toNode = k) ∧
  st.edges.Pairwise (fun e1 e2 => ¬ e2.connects e1.fromNode e1.toNode = true)

/-- Four notes with identical vectors whose mapped node ids
`"a-b"`, `"c"`, `"a"`, `"b-c"` make two distinct unordered pairs share the
sorted-join key `"a-b-c"`. -/
def ceNotes : List NoteEmbedding :=
  [⟨"n1", "", "", [1]⟩, ⟨"n2", "", "", [1]⟩, ⟨"n3", "", "", [1]⟩,
   ⟨"n4", "", "", [1]⟩]

/-- A file node with a given id at the origin. -/
def ceNode (i : String) : CanvasNode := .file i ⟨0, 0⟩ ⟨1, 1⟩ "" none

def ceNodeMap : List (String × CanvasNode) :=
  [("n1", ceNode "a-b"), ("n2", ceNode "c"), ("n3", ceNode "a"),
   ("n4", ceNode "b-c")]

/-- Two notes and their nodes for the C7 witness. -/
def wNotes : List NoteEmbedding := [⟨"n1", "", "", [1]⟩, ⟨"n2", "", "", [1]⟩]

def wNodeMap : List (String × CanvasNode) :=
  [("n1", ceNode "A"), ("n2", ceNode "B")]

/-! ## MDS projection engine

`src/core/domain/services/mds-algorithm.ts`.  `Math.sqrt` is the oracle
`sq`; the two power iterations draw their random initial vectors from the
injected streams `rand1`, `rand2` (`Math.random()` per entry). -/

/-- `MDSOptions` with the source's `DEFAULT_OPTIONS`
(tolerance `1e-6`). -/
structure MDSOptions where
  canvasWidth : ℚ := 2000
  canvasHeight : ℚ := 1500
  padding : ℚ := 100
  maxIterations : ℕ := 100
  tolerance : ℚ := 1/1000000

/-- `MDSInput`. -/
structure MDSInput where
  vectors : List (List ℚ)
  ids : List String

/-- `MDSAlgorithm.cosineSimilarity`: throws on a length mismatch. -/
def mdsCosineSimilarity (sq : ℚ → ℚ) (a b : List ℚ) : Except String ℚ :=
  if a.length ≠ b.length then .error "Vectors must have the same length"
  else .ok (cosineSimilarityCore sq a b)

/-- `MDSAlgorithm.computeDistanceMatrix`: `D[i][j] = sqrt(2 * (1 - sim))`
for `i < j`, mirrored to `D[j][i]` (the mirrored entry is written here as
the computation of the `(min i j, max i j)` pair), zero diagonal.  The
thrown similarity error propagates. -/
def computeDistanceMatrixE (sq : ℚ → ℚ) (vectors : List (List ℚ)) :
    Except String (List (List ℚ)) :=
  let n := vectors.length
  (List.range n).mapM (fun i => (List.range n).mapM (fun j =>
    if i = j then pure 0
    else if i < j then do
      let s ← mdsCosineSimilarity sq (vectors.getD i []) (vectors.getD j [])
      pure (sq (2 * (1 - s)))
    else do
      let s ← mdsCosineSimilarity sq (vectors.getD j []) (vectors.getD i [])
      pure (sq (2 * (1 - s)))))

/-- `MDSAlgorithm.doubleCentering`:
`B[i][j] = -0.5 * (D²[i][j] - rowMean[i] - colMean[j] + grandMean)`. -/
def doubleCentering (D : List (List ℚ)) : List (List ℚ) :=
  let n := D.length
  let D2 := D.map (fun row => row.map (fun d => d * d))
  let rowMean := fun i => (D2.getD i []).sum / (n : ℚ)
  let colMean := fun j => (D2.map (fun row => row.getD j 0)).sum / (n : ℚ)
  let grandMean := (D2.map (fun row => row.sum)).sum / ((n : ℚ) * (n : ℚ))
  (List.range n).map (fun i => (List.range n).map (fun j =>
    -(1/2) * ((D2.getD i []).getD j 0 - rowMean i - colMean j + grandMean)))

/-- The `for` loop of `MDSAlgorithm.powerIteration`, with the remaining
iteration budget as fuel.  `ev`/`v` are the current eigenvalue estimate
and iterate. -/
def powerIterLoop (sq : ℚ → ℚ) (M : List (List ℚ)) (n : ℕ) (tol : ℚ) :
    ℕ → ℚ → List ℚ → ℚ × List ℚ
  | 0, ev, v => (ev, v)
  | fuel + 1, ev, v =>
    let Mv := (List.range n).map (fun i =>
      ((List.range n).map (fun j =>
        (M.getD i []).getD j 0 * v.getD j 0)).sum)
    let newEv := ((List.range n).map (fun i =>
      Mv.getD i 0 * v.getD i 0)).sum
    let norm := sq ((Mv.map (fun x => x * x)).sum)
    if norm = 0 then (ev, v)
    else
      let newV := Mv.map (fun x => x / norm)
      if |newEv - ev| < tol then (newEv, newV)
      else powerIterLoop sq M n tol fuel newEv newV

/-- `MDSAlgorithm.powerIteration`: random initial vector (one draw per
entry, shifted by −0.5), normalized by its `sq`-norm, then the iteration
loop. -/
def powerIteration (sq : ℚ → ℚ) (rand : ℕ → ℚ) (maxIterations : ℕ)
    (tolerance : ℚ) (matrix : List (List ℚ))
    (deflatedMatrix : Option (List (List ℚ))) : ℚ × List ℚ :=
  let n := matrix.length
  let M := deflatedMatrix.getD matrix
  let v0 := (List.range n).map (fun i => rand i - 1/2)
  let norm0 := sq ((v0.map (fun x => x * x)).sum)
  let v := v0.map (fun x => x / norm0)
  powerIterLoop sq M n tolerance maxIterations 0 v

/-- `MDSAlgorithm.deflateMatrix`:
`deflated[i][j] = matrix[i][j] - eigenvalue * eigenvector[i] * eigenvector[j]`. -/
def deflateMatrix (matrix : List (List ℚ)) (eigenvalue : ℚ)
    (eigenvector : List ℚ) : List (List ℚ) :=
  let n := matrix.length
  (List.range n).map (fun i => (List.range n).map (fun j =>
    (matrix.getD i []).getD j 0 -
      eigenvalue * eigenvector.getD i 0 * eigenvector.getD j 0))

/-- `MDSAlgorithm.extractCoordinates`: first eigenpair from `B`, deflate,
second eigenpair from the deflated matrix, scale the eigenvectors by
`sqrt (max 0 eigenvalue)`. -/
def extractCoordinates (sq : ℚ → ℚ) (rand1 rand2 : ℕ → ℚ)
    (maxIterations : ℕ) (tolerance : ℚ) (B : List (List ℚ)) :
    List ℚ × List ℚ :=
  let result1 := powerIteration sq rand1 maxIterations tolerance B none
  let deflated := deflateMatrix B result1.1 result1.2
  let result2 := powerIteration sq rand2 maxIterations tolerance B
    (some deflated)
  let scale1 := sq (max 0 result1.1)
  let scale2 := sq (max 0 result2.1)
  (result1.2.map (fun v => v * scale1), result2.2.map (fun v => v * scale2))

/-- `Math.min(...l)` over a non-empty list (`0` for the empty list, which
the algorithm never passes). -/
def listMin : List ℚ → ℚ
  | [] => 0
  | h :: t => t.foldl min h

/-- `Math.max(...l)` over a non-empty list. -/
def listMax : List ℚ → ℚ
  | [] => 0
  | h :: t => t.foldl max h

/-- The degenerate-axis widening of `scaleToCanvas`: an axis whose values
are all equal is widened to `[value − 1, value + 1]`. -/
def adjustRange (lo hi : ℚ) : ℚ × ℚ :=
  if hi = lo then (lo - 1, hi + 1) else (lo, hi)

/-- `MDSAlgorithm.scaleToCanvas`: rescale both axes independently into
`[padding, size − padding]` and round to integers. -/
def scaleToCanvas (opts : MDSOptions) (x y : List ℚ) : List Coordinate :=
  let rx := adjustRange (listMin x) (listMax x)
  let ry := adjustRange (listMin y) (listMax y)
  let effectiveWidth := opts.canvasWidth - 2 * opts.padding
  let effectiveHeight := opts.canvasHeight - 2 * opts.padding
  (List.range x.length).map (fun i =>
    let scaledX := opts.padding +
      ((x.getD i 0 - rx.1) / (rx.2 - rx.1)) * effectiveWidth
    let scaledY := opts.padding +
      ((y.getD i 0 - ry.1) / (ry.2 - ry.1)) * effectiveHeight
    ⟨(jsRound scaledX : ℤ), (jsRound scaledY : ℤ)⟩)

/-- The result map built by `run`: `ids.forEach((id, i) => set id c[i])`
with JavaScript `Map.set` semantics. -/
def buildCoordMap (ids : List String) (coords : List Coordinate) :
    List (String × Coordinate) :=
  (List.range ids.length).foldl
    (fun m i => mapSet Prod.fst m (ids.getD i "", coords.getD i ⟨0, 0⟩)) []

/-- `MDSAlgorithm.run`. -/
def MDSrun (sq : ℚ → ℚ) (rand1 rand2 : ℕ → ℚ) (opts : MDSOptions)
    (input : MDSInput) : Except String (List (String × Coordinate)) :=
  if input.vectors.length ≠ input.ids.length then
    .error "Number of vectors must match number of IDs"
  else if input.vectors.length = 0 then .ok []
  else if input.vectors.length = 1 then
    .ok [(input.ids.getD 0 "",
      ⟨opts.canvasWidth / 2, opts.canvasHeight / 2⟩)]
  else do
    let D ← computeDistanceMatrixE sq input.vectors
    let B := doubleCentering D
    let xy := extractCoordinates sq rand1 rand2 opts.maxIterations
      opts.tolerance B
    let scaledCoords := scaleToCanvas opts xy.1 xy.2
    pure (buildCoordMap input.ids scaledCoords)

/-! ## DBSCAN clustering engine

`src/core/domain/services/dbscan-algorithm.ts`.  The `while` loop of
`expandCluster` is modelled with explicit fuel; `expandFuel` is an upper
bound on the number of iterations (proved sufficient by the drain lemma
below), so the fuelled loop computes exactly what the source loop does. -/

/-- `DBSCANPoint`. -/
structure DBSCANPoint where
  id : String
  coordinate : Coordinate
deriving DecidableEq, Repr

instance : Inhabited DBSCANPoint := ⟨⟨"", ⟨0, 0⟩⟩⟩

/-- `regionQuery`: indices of all points within distance `eps` of the
point at `pointIndex` (inclusive, so the point itself is a neighbor). -/
def regionQuery (sq : ℚ → ℚ) (eps : ℚ) (points : List DBSCANPoint)
    (pointIndex : ℕ) : List ℕ :=
  (List.range points.length).filter (fun i =>
    Coordinate.distanceTo sq (points.getD pointIndex default).coordinate
      (points.getD i default).coordinate ≤ eps)

/-- A point is *core* when its eps-neighborhood has at least `minPts`
points (`currentNeighbors.length >= this.options.minPts`). -/
def isCore (sq : ℚ → ℚ) (eps minPts : ℚ) (points : List DBSCANPoint)
    (k : ℕ) : Prop :=
  minPts ≤ ((regionQuery sq eps points k).length : ℚ)

instance (sq : ℚ → ℚ) (eps minPts : ℚ) (points : List DBSCANPoint)
    (k : ℕ) : Decidable (isCore sq eps minPts points k) := by
  unfold isCore
  infer_instance

/-- The mutable state of the `expandCluster` loop: the label array
(`undefined` = `none`, noise = `some (-1)`), the queue and the visited
set. -/
structure ExpandState where
  labels : List (Option Int)
  queue : List ℕ
  visited : Finset ℕ

/-- The `while (queue.length > 0)` loop of `expandCluster`:

* a visited index popped from the queue is skipped;
* an index labeled noise (`-1`) is relabeled to the cluster id
  (border point — its neighbors are **not** enqueued);
* an unlabeled index is labeled with the cluster id, and if it is a core
  point its not-yet-visited neighbors are pushed onto the queue;
* any other label is left untouched. -/
def expandLoop (sq : ℚ → ℚ) (eps minPts : ℚ) (points : List DBSCANPoint)
    (clusterId : Int) : ℕ → ExpandState → ExpandState
  | 0, st => st
  | fuel + 1, st =>
    match st.queue with
    | [] => st
    | current :: rest =>
      if current ∈ st.visited then
        expandLoop sq eps minPts points clusterId fuel { st with queue := rest }
      else
        let visited' := insert current st.visited
        match st.labels.getD current none with
        | some c =>
          if c = -1 then
            expandLoop sq eps minPts points clusterId fuel
              ⟨st.labels.set current (some clusterId), rest, visited'⟩
          else
            expandLoop sq eps minPts points clusterId fuel
              ⟨st.labels, rest, visited'⟩
        | none =>
          let labels' := st.labels.set current (some clusterId)
          let currentNeighbors := regionQuery sq eps points current
          if minPts ≤ (currentNeighbors.length : ℚ) then
            expandLoop sq eps minPts points clusterId fuel
              ⟨labels', rest ++ currentNeighbors.filter
                (fun nb => nb ∉ visited'), visited'⟩
          else
            expandLoop sq eps minPts points clusterId fuel
              ⟨labels', rest, visited'⟩

/-- Fuel sufficient to drain the queue (each iteration pops one entry;
at most `n` iterations enqueue, each at most `n` entries). -/
def expandFuel (points : List DBSCANPoint) (neighbors : List ℕ) : ℕ :=
  neighbors.length + (points.length + 1) * (points.length + 1)

/-- `expandCluster`: label the seed, then run the loop with the seed's
neighborhood as the initial queue and the seed marked visited. -/
def expandCluster (sq : ℚ → ℚ) (eps minPts : ℚ)
    (points : List DBSCANPoint) (labels : List (Option Int))
    (pointIndex : ℕ) (neighbors : List ℕ) (clusterId : Int) :
    List (Option Int) :=
  (expandLoop sq eps minPts points clusterId (expandFuel points neighbors)
    ⟨labels.set pointIndex (some clusterId), neighbors, {pointIndex}⟩).labels

/-- The labeling loop of `DBSCANAlgorithm.run`: visit each index once,
provisionally mark non-core points as noise (`-1`), and expand a fresh
cluster from each unvisited core point. -/
def runLabels (sq : ℚ → ℚ) (eps minPts : ℚ) (points : List DBSCANPoint) :
    List (Option Int) :=
  ((List.range points.length).foldl
    (fun (acc : List (Option Int) × Int) i =>
      if acc.1.getD i none ≠ none then acc
      else
        let neighbors := regionQuery sq eps points i
        if ((neighbors.length : ℚ)) < minPts then
          (acc.1.set i (some (-1)), acc.2)
        else
          (expandCluster sq eps minPts points acc.1 i neighbors acc.2,
            acc.2 + 1))
    (List.replicate points.length none, 0)).1

/-- Termination measure of the expansion loop: each iteration pops one
queue entry and enqueues at most `points.length` new ones while adding a
fresh member to `visited`. -/
def expandMeasure (points : List DBSCANPoint) (st : ExpandState) : ℕ :=
  st.queue.length + (points.length + 1) * (points.length - st.visited.card)

/-- Loop invariant of `expandLoop`, relative to the label array `L0` and
seed neighborhood `neighbors0` the surrounding `expandCluster` call
started from:

* label and visited-set bookkeeping stays in range;
* labels only ever change to `some clusterId`;
* the neighbors of every core point newly labeled with the cluster id
  are all queued or visited;
* every queue entry is a seed neighbor or the neighbor of a newly
  labeled core point;
* every index newly labeled with the cluster id is the seed, a seed
  neighbor, or the neighbor of a newly labeled core point;
* every visited index that started as noise (`-1`) or unlabeled now
  carries the cluster id. -/
structure ExpandInv (sq : ℚ → ℚ) (eps minPts : ℚ) (points : List DBSCANPoint)
    (clusterId : Int) (L0 : List (Option Int)) (neighbors0 : List ℕ)
    (pointIndex : ℕ) (st : ExpandState) : Prop where
  len : st.labels.length = points.length
  vsub : st.visited ⊆ Finset.range points.length
  qlt : ∀ q ∈ st.queue, q < points.length
  mono : ∀ j, st.labels.getD j none = L0.getD j none ∨
    st.labels.getD j none = some clusterId
  core_rec : ∀ k, k < points.length → st.labels.getD k none = some clusterId →
    L0.getD k none = none → isCore sq eps minPts points k →
    ∀ j ∈ regionQuery sq eps points k, j ∈ st.visited ∨ j ∈ st.queue
  qprov : ∀ j ∈ st.queue, j ∈ neighbors0 ∨ ∃ k, k < points.length ∧
    L0.getD k none = none ∧ st.labels.getD k none = some clusterId ∧
    isCore sq eps minPts points k ∧ j ∈ regionQuery sq eps points k
  lprov : ∀ j, j < points.length → st.labels.getD j none = some clusterId →
    L0.getD j none = some clusterId ∨ j = pointIndex ∨ j ∈ neighbors0 ∨
    ∃ k, k < points.length ∧ L0.getD k none = none ∧
      st.labels.getD k none = some clusterId ∧ isCore sq eps minPts points k ∧
      j ∈ regionQuery sq eps points k
  vlab : ∀ j ∈ st.visited,
    (L0.getD j none = some (-1) → st.labels.getD j none = some clusterId) ∧
    (L0.getD j none = none → st.labels.getD j none = some clusterId)

/-- Concrete DBSCAN input for the C5 witness: three unit-spaced points
and one far outlier. -/
def wPointsD : List DBSCANPoint :=
  [⟨"p0", ⟨0, 0⟩⟩, ⟨"p1", ⟨1, 0⟩⟩, ⟨"p2", ⟨2, 0⟩⟩, ⟨"p3", ⟨10, 0⟩⟩]

/-- Label array for the C5 witness: index 2 provisionally noise. -/
def wLabelsD : List (Option Int) := [none, none, some (-1), none]

/-! ### Association-list lemmas -/

theorem mem_of_mem_mapSet {α : Type} {key : α → String} {l : List α} {a a' : α}
    (h : a' ∈ mapSet key l a) : a' ∈ l ∨ a' = a := by
  induction l with
  | nil => simpa [mapSet] using h
  | cons b bs ih =>
    by_cases hb : key b = key a
    · simp only [mapSet, if_pos hb, List.mem_cons] at h
      rcases h with h | h
      · exact .inr h
      · exact .inl (List.mem_cons_of_mem _ h)
    · simp only [mapSet, if_neg hb, List.mem_cons] at h
      rcases h with h | h
      · exact .inl (h ▸ List.mem_cons_self _ _)
      · rcases ih h with h' | h'
        · exact .inl (List.mem_cons_of_mem _ h')
        · exact .inr h'

theorem mapHas_iff {α : Type} {key : α → String} {l : List α} {k : String} :
    mapHas key l k = true ↔ ∃ a ∈ l, key a = k := by
  simp [mapHas, List.any_eq_true, decide_eq_true_eq]

theorem mapHas_mapSet {α : Type} {key : α → String} {l : List α} {a : α}
    {k : String} (h : mapHas key l k = true) :
    mapHas key (mapSet key l a) k = true := by
  rw [mapHas_iff] at h ⊢
  obtain ⟨b, hb, hk⟩ := h
  induction l with
  | nil => cases hb
  | cons c cs ih =>
    by_cases hc : key c = key a
    · simp only [mapSet, if_pos hc]
      rcases List.mem_cons.mp hb with rfl | hb'
      · exact ⟨a, List.mem_cons_self _ _, hc ▸ hk⟩
      · exact ⟨b, List.mem_cons_of_mem _ hb', hk⟩
    · simp only [mapSet, if_neg hc]
      rcases List.mem_cons.mp hb with rfl | hb'
      · exact ⟨b, List.mem_cons_self _ _, hk⟩
      · obtain ⟨d, hd, hdk⟩ := ih hb'
        exact ⟨d, List.mem_cons_of_mem _ hd, hdk⟩

theorem mapHas_mapDelete {α : Type} {key : α → String} {l : List α}
    {k kDel : String} (h : mapHas key l k = true) (hne : k ≠ kDel) :
    mapHas key (mapDelete key l kDel) k = true := by
  rw [mapHas_iff] at h ⊢
  obtain ⟨a, ha, hk⟩ := h
  exact ⟨a, List.mem_filter.mpr ⟨ha, by simp [hk, hne]⟩, hk⟩

/-! ### Preservation of referential integrity (claim C2) -/

theorem edgesClosed_addNode {g : CanvasGraph} (h : EdgesClosed g)
    (n : CanvasNode) : EdgesClosed (g.addNode n) := by
  intro e he
  obtain ⟨h1, h2⟩ := h e he
  exact ⟨mapHas_mapSet h1, mapHas_mapSet h2⟩

theorem edgesClosed_addNodes {g : CanvasGraph} (h : EdgesClosed g)
    (ns : List CanvasNode) : EdgesClosed (g.addNodes ns) := by
  induction ns generalizing g with
  | nil => exact h
  | cons n ns ih => exact ih (edgesClosed_addNode h n)

theorem edgesClosed_addEdge {g : CanvasGraph} (h : EdgesClosed g)
    (e : CanvasEdge) : EdgesClosed (g.addEdge e).1 := by
  unfold CanvasGraph.addEdge
  split
  · exact h
  · next hcond =>
    push_neg at hcond
    intro e' he'
    rcases mem_of_mem_mapSet he' with h' | rfl
    · exact h e' h'
    · exact ⟨by simpa using hcond.1, by simpa using hcond.2⟩

theorem edgesClosed_addEdges {g : CanvasGraph} (h : EdgesClosed g)
    (es : List CanvasEdge) : EdgesClosed (g.addEdges es).1 := by
  induction es generalizing g with
  | nil => exact h
  | cons e es ih =>
    show EdgesClosed (CanvasGraph.addEdges g (e :: es)).1
    unfold CanvasGraph.addEdges
    have hstep := edgesClosed_addEdge h e
    rcases hadd : g.addEdge e with ⟨g', err⟩
    rw [hadd] at hstep
    cases err with
    | none => exact ih hstep
    | some msg => exact hstep

theorem edgesClosed_removeNode {g : CanvasGraph} (h : EdgesClosed g)
    (nodeId : String) : EdgesClosed (g.removeNode nodeId).1 := by
  unfold CanvasGraph.removeNode
  split
  · intro e he
    have hmem := List.mem_filter.mp he
    obtain ⟨h1, h2⟩ := h e hmem.1
    have hninv : e.involves nodeId = false := by
      have := hmem.2
      simpa using this
    have hfrom : e.fromNode ≠ nodeId := by
      intro hcontra
      simp [CanvasEdge.involves, hcontra] at hninv
    have hto : e.toNode ≠ nodeId := by
      intro hcontra
      simp [CanvasEdge.involves, hcontra] at hninv
    exact ⟨mapHas_mapDelete h1 hfrom, mapHas_mapDelete h2 hto⟩
  · exact h

theorem edgesClosed_removeEdge {g : CanvasGraph} (h : EdgesClosed g)
    (edgeId : String) : EdgesClosed (g.removeEdge edgeId) := by
  intro e he
  exact h e (List.mem_filter.mp he).1

theorem edgesClosed_applyOp {g : CanvasGraph} (h : EdgesClosed g)
    (op : GraphOp) : EdgesClosed (applyOp g op) := by
  cases op with
  | addNode n => exact edgesClosed_addNode h n
  | addNodes ns => exact edgesClosed_addNodes h ns
  | addEdge e => exact edgesClosed_addEdge h e
  | addEdges es => exact edgesClosed_addEdges h es
  | removeNode i => exact edgesClosed_removeNode h i
  | removeEdge i => exact edgesClosed_removeEdge h i
  | clear => intro e he; cases he

/-- C2: Referential-integrity invariant: after any sequence of
`CanvasGraph` operations (`addNode`, `addNodes`, `addEdge`, `addEdges`,
`removeNode`, `removeEdge`, `clear`) starting from the empty graph, every
stored edge has both of its endpoint ids present as nodes of the same
graph; and `removeNode nodeId` removes every edge that involves
`nodeId` (on any graph whatsoever). -/
theorem graph_referential_integrity (ops : List GraphOp) :
    EdgesClosed (runOps ops) ∧
    ∀ (g : CanvasGraph), EdgesClosed g → ∀ (nodeId : String) (e : CanvasEdge),
      e ∈ (g.removeNode nodeId).1.edges → e.involves nodeId = false := by
  constructor
  · have : ∀ (l : List GraphOp) (g : CanvasGraph), EdgesClosed g →
        EdgesClosed (l.foldl applyOp g) := by
      intro l
      induction l with
      | nil => intro g h; exact h
      | cons op ops ih => intro g h; exact ih _ (edgesClosed_applyOp h op)
    exact this ops CanvasGraph.empty (fun e he => nomatch he)
  · intro g hclosed nodeId e he
    unfold CanvasGraph.removeNode at he
    split at he
    · have := (List.mem_filter.mp he).2
      simpa using this
    · next hnot =>
      -- the node is absent, so by referential integrity no retained edge
      -- can involve it
      obtain ⟨h1, h2⟩ := hclosed e he
      by_contra hinv
      have hinv' : e.involves nodeId = true := by
        cases h : e.involves nodeId with
        | true => rfl
        | false => exact absurd h hinv
      simp only [CanvasEdge.involves, decide_eq_true_eq] at hinv'
      rcases hinv' with h' | h'
      · exact hnot (h' ▸ h1)
      · exact hnot (h' ▸ h2)

/-- Witness for C2 at a concrete operation sequence and a concrete
`removeNode` call on a concrete well-formed graph. -/
theorem graph_referential_integrity_witness :
    EdgesClosed (runOps [.addNode sampleNodeA, .addNode sampleNodeB,
      .addEdge sampleEdgeAB, .removeNode "n1"]) ∧
    sampleEdgeAB.involves "n3" = false :=
  ⟨(graph_referential_integrity _).1,
   (graph_referential_integrity []).2 sampleGraph
     (by intro e he; fin_cases he; decide) "n3" sampleEdgeAB (by decide)⟩

/-- C3: adding an edge whose `fromNode` or `toNode` is not a node of the
graph is rejected with a reported error message (not a silent drop), and
the graph — in particular its edge map and `edgeCount` — is exactly what
it was before the call. -/
theorem addEdge_missing_endpoint_rejected (g : CanvasGraph) (e : CanvasEdge)
    (h : g.hasNode e.fromNode = false ∨ g.hasNode e.toNode = false) :
    (g.addEdge e).2 = some ("Cannot add edge: nodes " ++ e.fromNode ++
      " or " ++ e.toNode ++ " not found") ∧
    (g.addEdge e).1 = g ∧ (g.addEdge e).1.edgeCount = g.edgeCount := by
  have hcond : ¬ mapHas CanvasNode.id g.nodes e.fromNode = true ∨
      ¬ mapHas CanvasNode.id g.nodes e.toNode = true := by
    rcases h with h | h
    · exact .inl (by simp [CanvasGraph.hasNode] at h; simp [h])
    · exact .inr (by simp [CanvasGraph.hasNode] at h; simp [h])
  unfold CanvasGraph.addEdge
  rw [if_pos hcond]
  exact ⟨rfl, rfl, rfl⟩

/-! ### What `parseNode` does to a serialized node -/

theorem parseNode_toCanvasFormat_file (i : String) (p : Coordinate)
    (d : Dimension) (f : String) (col : Option String) (c : ℕ)
    (hw : 0 ≤ d.width) (hh : 0 ≤ d.height) :
    CanvasGraph.parseNode (CanvasNode.file i p d f col).toCanvasFormat c =
      (some (.file ("file-" ++ toString (c + 1)) p d f none), c + 1) := by
  have hd : Dimension.make d.width d.height = some d := by
    simp [Dimension.make, not_lt.mpr hw, not_lt.mpr hh]
  simp [CanvasNode.toCanvasFormat, CanvasGraph.parseNode, hd, generateNodeId]

theorem parseNode_toCanvasFormat_text (i : String) (p : Coordinate)
    (d : Dimension) (t : String) (col : Option String) (c : ℕ)
    (hw : 0 ≤ d.width) (hh : 0 ≤ d.height) :
    CanvasGraph.parseNode (CanvasNode.text i p d t col).toCanvasFormat c =
      (some (.text ("text-" ++ toString (c + 1)) p d t none), c + 1) := by
  have hd : Dimension.make d.width d.height = some d := by
    simp [Dimension.make, not_lt.mpr hw, not_lt.mpr hh]
  simp [CanvasNode.toCanvasFormat, CanvasGraph.parseNode, hd, generateNodeId]

theorem parseNode_toCanvasFormat_group (i : String) (p : Coordinate)
    (d : Dimension) (l col : Option String) (c : ℕ)
    (hw : 0 ≤ d.width) (hh : 0 ≤ d.height) :
    CanvasGraph.parseNode (CanvasNode.group i p d l col).toCanvasFormat c =
      (some (.group i p d (some ((emitTruthy l).getD "")) none), c) := by
  have hd : Dimension.make d.width d.height = some d := by
    simp [Dimension.make, not_lt.mpr hw, not_lt.mpr hh]
  simp [CanvasNode.toCanvasFormat, CanvasGraph.parseNode, hd]

theorem parseNodesList_serialized (ns : List CanvasNode) (c : ℕ)
    (hd : ∀ n ∈ ns, 0 ≤ n.dimension.width ∧ 0 ≤ n.dimension.height) :
    parseNodesList (ns.map CanvasNode.toCanvasFormat) c = reparseNodes ns c := by
  induction ns generalizing c with
  | nil => rfl
  | cons n ns ih =>
    have hdn := hd n (List.mem_cons_self _ _)
    have hdr : ∀ m ∈ ns, 0 ≤ m.dimension.width ∧ 0 ≤ m.dimension.height :=
      fun m hm => hd m (List.mem_cons_of_mem _ hm)
    cases n with
    | file i p d f col =>
      simp only [List.map_cons, parseNodesList,
        parseNode_toCanvasFormat_file i p d f col c hdn.1 hdn.2,
        reparseNodes, reparseNode, ih _ hdr]
    | text i p d t col =>
      simp only [List.map_cons, parseNodesList,
        parseNode_toCanvasFormat_text i p d t col c hdn.1 hdn.2,
        reparseNodes, reparseNode, ih _ hdr]
    | group i p d l col =>
      simp only [List.map_cons, parseNodesList,
        parseNode_toCanvasFormat_group i p d l col c hdn.1 hdn.2,
        reparseNodes, reparseNode, ih _ hdr]

theorem reparseNodes_kinds (ns : List CanvasNode) (c : ℕ) :
    ((reparseNodes ns c).1.map CanvasNode.kind) = ns.map CanvasNode.kind := by
  induction ns generalizing c with
  | nil => rfl
  | cons n ns ih =>
    cases n <;> simp [reparseNodes, reparseNode, CanvasNode.kind, ih]

theorem reparseNodes_length (ns : List CanvasNode) (c : ℕ) :
    (reparseNodes ns c).1.length = ns.length := by
  have := congrArg List.length (reparseNodes_kinds ns c)
  simpa using this

/-- Group nodes keep their ids across reparsing. -/
theorem reparseNodes_group_ids (ns : List CanvasNode) (c : ℕ) (i : String)
    (h : ∃ n ∈ ns, n.kind = .group ∧ n.id = i) :
    i ∈ (reparseNodes ns c).1.map CanvasNode.id := by
  induction ns generalizing c with
  | nil => obtain ⟨n, hn, _⟩ := h; cases hn
  | cons n ns ih =>
    obtain ⟨m, hm, hk, hi⟩ := h
    rcases List.mem_cons.mp hm with rfl | hm'
    · cases m with
      | file => cases hk
      | text => cases hk
      | group j p d l col =>
        simp only [CanvasNode.id] at hi
        simp [reparseNodes, reparseNode, hi, CanvasNode.id]
    · cases n with
      | file j p d f col =>
        have := ih (c + 1) ⟨m, hm', hk, hi⟩
        simp only [List.mem_map] at this
        obtain ⟨a, ha, hai⟩ := this
        exact List.mem_map.mpr ⟨a, by simp [reparseNodes, reparseNode, ha], hai⟩
      | text j p d t col =>
        have := ih (c + 1) ⟨m, hm', hk, hi⟩
        simp only [List.mem_map] at this
        obtain ⟨a, ha, hai⟩ := this
        exact List.mem_map.mpr ⟨a, by simp [reparseNodes, reparseNode, ha], hai⟩
      | group j p d l col =>
        have := ih c ⟨m, hm', hk, hi⟩
        simp only [List.mem_map] at this
        obtain ⟨a, ha, hai⟩ := this
        exact List.mem_map.mpr ⟨a, by simp [reparseNodes, reparseNode, ha], hai⟩

/-! ### The node phase of `fromJSON` -/

theorem fromJSONNodes_eq (nds : List NodeData) (g : CanvasGraph) (c : ℕ) :
    CanvasGraph.fromJSONNodes g nds c =
      (g.addNodes (parseNodesList nds c).1, (parseNodesList nds c).2) := by
  induction nds generalizing g c with
  | nil => rfl
  | cons nd nds ih =>
    simp only [CanvasGraph.fromJSONNodes, parseNodesList]
    rcases hp : CanvasGraph.parseNode nd c with ⟨n?, c'⟩
    cases n? with
    | some n =>
      simp only [ih]
      rcases parseNodesList nds c' with ⟨rest, c''⟩
      rfl
    | none => simp only [ih]

theorem mapSet_append {α : Type} {key : α → String} {l : List α} {a : α}
    (h : ∀ b ∈ l, key b ≠ key a) : mapSet key l a = l ++ [a] := by
  induction l with
  | nil => rfl
  | cons b bs ih =>
    have hb := h b (List.mem_cons_self _ _)
    simp only [mapSet, if_neg hb, List.cons_append, List.cons.injEq, true_and]
    exact ih (fun x hx => h x (List.mem_cons_of_mem _ hx))

theorem addNode_edges (g : CanvasGraph) (n : CanvasNode) :
    (g.addNode n).edges = g.edges := rfl

theorem addNodes_edges (g : CanvasGraph) (ns : List CanvasNode) :
    (g.addNodes ns).edges = g.edges := by
  induction ns generalizing g with
  | nil => rfl
  | cons n ns ih => exact ih (g.addNode n)

theorem addNodes_nodes_of_nodup (ns : List CanvasNode) (g : CanvasGraph)
    (h : ((g.nodes ++ ns).map CanvasNode.id).Nodup) :
    (g.addNodes ns).nodes = g.nodes ++ ns := by
  induction ns generalizing g with
  | nil => simp [CanvasGraph.addNodes]
  | cons n ns ih =>
    have hfresh : ∀ b ∈ g.nodes, CanvasNode.id b ≠ CanvasNode.id n := by
      intro b hb hcontra
      have hmem1 : b.id ∈ (g.nodes.map CanvasNode.id) :=
        List.mem_map.mpr ⟨b, hb, rfl⟩
      have h' : (g.nodes.map CanvasNode.id ++
          (n :: ns).map CanvasNode.id).Nodup := by simpa using h
      exact (List.nodup_append.mp h').2.2 hmem1 (by simp [hcontra])
    have hstep : (g.addNode n).nodes = g.nodes ++ [n] := mapSet_append hfresh
    show ((g.addNode n).addNodes ns).nodes = g.nodes ++ n :: ns
    rw [ih (g.addNode n) (by rw [hstep]; simpa using h), hstep]
    simp

/-! ### The edge phase of `fromJSON` -/

theorem addEdge_nodes (g : CanvasGraph) (e : CanvasEdge) :
    (g.addEdge e).1.nodes = g.nodes := by
  unfold CanvasGraph.addEdge
  split <;> rfl

theorem fromJSONEdges_nodes (eds : List EdgeData) (g : CanvasGraph) (c : ℕ) :
    (CanvasGraph.fromJSONEdges g eds c).1.nodes = g.nodes := by
  induction eds generalizing g c with
  | nil => rfl
  | cons ed eds ih =>
    simp only [CanvasGraph.fromJSONEdges]
    rcases hp : CanvasGraph.parseEdge ed c with ⟨e?, c'⟩
    cases e? with
    | some e => rw [ih]; exact addEdge_nodes g e
    | none => exact ih g c'

/-- The edge phase appends exactly the parsed edges whose endpoints are
node ids, provided the parsed edge ids are fresh and pairwise distinct. -/
theorem fromJSONEdges_edges_eq (eds : List EdgeData) (g : CanvasGraph) (c : ℕ)
    (hnodup : ((parseEdgesList eds c).1.map CanvasEdge.id).Nodup)
    (hfresh : ∀ e ∈ (parseEdgesList eds c).1,
      e.id ∉ g.edges.map CanvasEdge.id) :
    (CanvasGraph.fromJSONEdges g eds c).1.edges =
      g.edges ++ (parseEdgesList eds c).1.filter
        (fun e => mapHas CanvasNode.id g.nodes e.fromNode ∧
                  mapHas CanvasNode.id g.nodes e.toNode) := by
  induction eds generalizing g c with
  | nil => simp [CanvasGraph.fromJSONEdges, parseEdgesList]
  | cons ed eds ih =>
    simp only [CanvasGraph.fromJSONEdges, parseEdgesList]
    rcases hp : CanvasGraph.parseEdge ed c with ⟨e?, c'⟩
    cases e? with
    | none =>
      simp only [hp, parseEdgesList] at hnodup hfresh ⊢
      exact ih g c' hnodup hfresh
    | some e =>
      simp only [hp, parseEdgesList] at hnodup hfresh ⊢
      rcases hrest : parseEdgesList eds c' with ⟨rest, c''⟩
      simp only [hrest] at hnodup hfresh ⊢
      have hnd : e.id ∉ rest.map CanvasEdge.id ∧
          (rest.map CanvasEdge.id).Nodup :=
        List.nodup_cons.mp (by simpa using hnodup)
      by_cases hok : mapHas CanvasNode.id g.nodes e.fromNode = true ∧
          mapHas CanvasNode.id g.nodes e.toNode = true
      · have hadd : (g.addEdge e).1 =
            { g with edges := mapSet CanvasEdge.id g.edges e } := by
          unfold CanvasGraph.addEdge
          rw [if_neg]
          push_neg
          exact hok
        have happend : mapSet CanvasEdge.id g.edges e = g.edges ++ [e] := by
          apply mapSet_append
          intro b hb hcontra
          exact hfresh e (by simp) (hcontra ▸ List.mem_map.mpr ⟨b, hb, rfl⟩)
        have ih' := ih (g.addEdge e).1 c'
        rw [hrest] at ih'
        rw [ih' hnd.2
            (by
              intro e' he'
              rw [hadd]
              simp only [happend, List.map_append, List.mem_append]
              push_neg
              refine ⟨fun hmem => hfresh e' (List.mem_cons_of_mem _ he') hmem,
                ?_⟩
              intro hmem
              simp only [List.map_cons, List.map_nil, List.mem_singleton]
                at hmem
              exact hnd.1 (hmem ▸ List.mem_map.mpr ⟨e', he', rfl⟩))]
        rw [hadd]
        simp only [happend]
        simp only [List.filter_cons]
        rw [if_pos (by simp [hok.1, hok.2])]
        simp
      · have hadd : (g.addEdge e).1 = g := by
          unfold CanvasGraph.addEdge
          rw [if_pos]
          rw [not_and_or] at hok
          rcases hok with h | h
          · exact .inl (by simpa using h)
          · exact .inr (by simpa using h)
        rw [hadd]
        have ih' := ih g c'
        rw [hrest] at ih'
        rw [ih' hnd.2 (fun e' he' => hfresh e' (List.mem_cons_of_mem _ he'))]
        simp only [List.filter_cons]
        rw [if_neg (by simpa using hok)]

/-! ### What `parseEdge` does to a serialized edge -/

theorem parseEdge_toCanvasFormat (e : CanvasEdge) (c : ℕ)
    (hf : e.fromNode ≠ "") (ht : e.toNode ≠ "") :
    CanvasGraph.parseEdge e.toCanvasFormat c =
      (some { id := "edge-" ++ toString (c + 1), fromNode := e.fromNode,
              toNode := e.toNode, fromSide := emitTruthy e.fromSide,
              toSide := emitTruthy e.toSide, fromEnd := emitTruthy e.fromEnd,
              toEnd := some ((emitTruthy e.toEnd).getD "arrow"),
              color := emitTruthy e.color,
              label := emitTruthy e.label }, c + 1) := by
  simp [CanvasGraph.parseEdge, CanvasEdge.toCanvasFormat, strTruthy, hf, ht,
    CanvasEdge.create, generateEdgeId]

/-- Every successfully parsed serialized edge has the endpoints of some
original edge. -/
theorem parseEdgesList_serialized_mem (es : List CanvasEdge) (c : ℕ) :
    ∀ e' ∈ (parseEdgesList (es.map CanvasEdge.toCanvasFormat) c).1,
      ∃ e ∈ es, e'.fromNode = e.fromNode ∧ e'.toNode = e.toNode := by
  induction es generalizing c with
  | nil => intro e' h; cases h
  | cons e es ih =>
    intro e' he'
    simp only [List.map_cons, parseEdgesList] at he'
    split at he'
    · next ep c' hp =>
      rcases List.mem_cons.mp he' with rfl | he''
      · refine ⟨e, List.mem_cons_self _ _, ?_⟩
        by_cases hf : e.fromNode = ""
        · simp [CanvasGraph.parseEdge, CanvasEdge.toCanvasFormat, strTruthy,
            hf] at hp
        by_cases ht : e.toNode = ""
        · simp [CanvasGraph.parseEdge, CanvasEdge.toCanvasFormat, strTruthy,
            hf, ht] at hp
        rw [parseEdge_toCanvasFormat e c hf ht] at hp
        cases hp
        exact ⟨rfl, rfl⟩
      · obtain ⟨a, ha, h1, h2⟩ := ih c' e' he''
        exact ⟨a, List.mem_cons_of_mem _ ha, h1, h2⟩
    · next c' hp =>
      obtain ⟨a, ha, h1, h2⟩ := ih c' e' he'
      exact ⟨a, List.mem_cons_of_mem _ ha, h1, h2⟩

/-- Every original edge with truthy endpoints has a successfully parsed
counterpart with the same endpoints. -/
theorem parseEdgesList_serialized_surj (es : List CanvasEdge) (c : ℕ)
    (e : CanvasEdge) (he : e ∈ es) (hf : e.fromNode ≠ "")
    (ht : e.toNode ≠ "") :
    ∃ e' ∈ (parseEdgesList (es.map CanvasEdge.toCanvasFormat) c).1,
      e'.fromNode = e.fromNode ∧ e'.toNode = e.toNode := by
  induction es generalizing c with
  | nil => cases he
  | cons a es ih =>
    simp only [List.map_cons, parseEdgesList]
    rcases List.mem_cons.mp he with rfl | he'
    · rw [parseEdge_toCanvasFormat e c hf ht]
      exact ⟨_, List.mem_cons_self _ _, rfl, rfl⟩
    · split
      · next ep c' hp =>
        obtain ⟨e', he'', h1, h2⟩ := ih c' he'
        exact ⟨e', List.mem_cons_of_mem _ he'', h1, h2⟩
      · next c' hp => exact ih c' he'

/-! ### Counting helpers -/

theorem countKind_eq_countP_map (k : NodeKind) (l : List CanvasNode) :
    countKind k l = (l.map CanvasNode.kind).countP (fun x => x = k) := by
  induction l with
  | nil => rfl
  | cons n ns ih =>
    simp only [countKind, List.filter_cons, List.map_cons, List.countP_cons]
      at ih ⊢
    by_cases h : n.kind = k <;> simp [h, ih, countKind]

theorem countKind_of_map_kind_eq {l1 l2 : List CanvasNode}
    (h : l1.map CanvasNode.kind = l2.map CanvasNode.kind) (k : NodeKind) :
    countKind k l1 = countKind k l2 := by
  rw [countKind_eq_countP_map, countKind_eq_countP_map, h]

theorem countKind_perm {l1 l2 : List CanvasNode} (h : l1.Perm l2)
    (k : NodeKind) : countKind k l1 = countKind k l2 :=
  (h.filter _).length_eq

/-- C1 counterexample: on a graph with two file nodes and one edge, the
round trip `fromJSON ∘ toCanvasFormat` loses the edge (`parseNode`
regenerates file/text node ids, so the serialized edge references ids that
no longer exist and is dropped by `fromJSON`'s catch), so the edge count is
not preserved: it drops from 1 to 0. -/
theorem graph_roundtrip_counterexample :
    (CanvasGraph.fromJSON sampleGraph.toCanvasFormat 0 0).edgeCount = 0 ∧
    sampleGraph.edgeCount = 1 := ⟨rfl, rfl⟩

/-- C1 (amended): the round trip preserves the node count and the node
type distribution, but not the edge count: only edges whose two endpoints
are ids of group nodes survive; every surviving edge corresponds to an
original edge between group nodes, and every original edge between group
nodes survives.  Hypotheses: node dimensions are non-negative (guaranteed
by the `Dimension` constructor in the source), edge endpoints are
non-empty strings, the regenerated node ids do not collide
(`Date.now()`-based ids make collisions practically impossible; here this
is an explicit hypothesis), the fresh edge ids are distinct, and no
original edge endpoint collides with a regenerated file/text id. -/
theorem graph_roundtrip_amended (g : CanvasGraph) (nc ec : ℕ)
    (hdims : ∀ n ∈ g.nodes, 0 ≤ n.dimension.width ∧ 0 ≤ n.dimension.height)
    (hnodupN : ((parseNodesList g.toCanvasFormat.nodes nc).1.map
      CanvasNode.id).Nodup)
    (hne : ∀ e ∈ g.edges, e.fromNode ≠ "" ∧ e.toNode ≠ "")
    (hfresh : ∀ e ∈ g.edges,
      (e.fromNode ∈ (parseNodesList g.toCanvasFormat.nodes nc).1.map
        CanvasNode.id → e.fromNode ∈ groupIds g) ∧
      (e.toNode ∈ (parseNodesList g.toCanvasFormat.nodes nc).1.map
        CanvasNode.id → e.toNode ∈ groupIds g))
    (hnodupE : ((parseEdgesList g.toCanvasFormat.edges ec).1.map
      CanvasEdge.id).Nodup) :
    (CanvasGraph.fromJSON g.toCanvasFormat nc ec).nodeCount = g.nodeCount ∧
    (∀ k : NodeKind,
      countKind k (CanvasGraph.fromJSON g.toCanvasFormat nc ec).nodes =
        countKind k g.nodes) ∧
    (∀ e' ∈ (CanvasGraph.fromJSON g.toCanvasFormat nc ec).edges,
      ∃ e ∈ g.edges, e'.fromNode = e.fromNode ∧ e'.toNode = e.toNode ∧
        e.fromNode ∈ groupIds g ∧ e.toNode ∈ groupIds g) ∧
    (∀ e ∈ g.edges, e.fromNode ∈ groupIds g → e.toNode ∈ groupIds g →
      ∃ e' ∈ (CanvasGraph.fromJSON g.toCanvasFormat nc ec).edges,
        e'.fromNode = e.fromNode ∧ e'.toNode = e.toNode) := by
  classical
  -- the serialized node list comes from the group-first reordering
  set ns : List CanvasNode := g.nodes.filter (fun n => n.kind = .group) ++
    g.nodes.filter (fun n => n.kind ≠ .group) with hns
  have hsn : g.toCanvasFormat.nodes = ns.map CanvasNode.toCanvasFormat := rfl
  have hse : g.toCanvasFormat.edges = g.edges.map CanvasEdge.toCanvasFormat :=
    rfl
  have hperm : ns.Perm g.nodes := by
    have := List.filter_append_perm (fun n => decide (n.kind = NodeKind.group))
      g.nodes
    rw [hns]
    have hfun : (fun n : CanvasNode => decide (n.kind ≠ NodeKind.group)) =
        (fun n : CanvasNode => !decide (n.kind = NodeKind.group)) := by
      funext x
      simp [decide_not]
    rw [hfun]
    exact this
  have hdims' : ∀ n ∈ ns, 0 ≤ n.dimension.width ∧ 0 ≤ n.dimension.height :=
    fun n hn => hdims n (hperm.mem_iff.mp hn)
  have hparse : parseNodesList g.toCanvasFormat.nodes nc = reparseNodes ns nc := by
    rw [hsn]; exact parseNodesList_serialized ns nc hdims'
  set parsed : List CanvasNode := (reparseNodes ns nc).1 with hparsed
  have hg1 : (CanvasGraph.fromJSONNodes CanvasGraph.empty
      g.toCanvasFormat.nodes nc).1 = CanvasGraph.empty.addNodes parsed := by
    rw [fromJSONNodes_eq, hparse]
  have hnodesparsed : (CanvasGraph.empty.addNodes parsed).nodes = parsed := by
    have := addNodes_nodes_of_nodup parsed CanvasGraph.empty
      (by
        rw [hparse] at hnodupN
        simpa [CanvasGraph.empty] using hnodupN)
    simpa [CanvasGraph.empty] using this
  have hrtdef : CanvasGraph.fromJSON g.toCanvasFormat nc ec =
      (CanvasGraph.fromJSONEdges (CanvasGraph.empty.addNodes parsed)
        g.toCanvasFormat.edges ec).1 := by
    unfold CanvasGraph.fromJSON
    rw [← hg1]
  have hrtnodes : (CanvasGraph.fromJSON g.toCanvasFormat nc ec).nodes =
      parsed := by
    rw [hrtdef, fromJSONEdges_nodes, hnodesparsed]
  have hg1edges : (CanvasGraph.empty.addNodes parsed).edges = [] := by
    rw [addNodes_edges]; rfl
  have hedges : (CanvasGraph.fromJSON g.toCanvasFormat nc ec).edges =
      (parseEdgesList g.toCanvasFormat.edges ec).1.filter
        (fun e => mapHas CanvasNode.id parsed e.fromNode ∧
                  mapHas CanvasNode.id parsed e.toNode) := by
    rw [hrtdef, fromJSONEdges_edges_eq _ _ _ hnodupE
      (by intro e he; rw [hg1edges]; simp)]
    rw [hg1edges, hnodesparsed]
    simp
  -- membership in group ids gives membership among the parsed ids
  have hgroup_sub : ∀ i ∈ groupIds g, i ∈ parsed.map CanvasNode.id := by
    intro i hi
    obtain ⟨n, hn, hni⟩ := List.mem_map.mp hi
    have hn' := List.mem_filter.mp hn
    refine reparseNodes_group_ids ns nc i ⟨n, ?_, ?_, hni⟩
    · exact List.mem_append_left _ hn
    · simpa using hn'.2
  refine ⟨?_, ?_, ?_, ?_⟩
  · -- node count
    show (CanvasGraph.fromJSON g.toCanvasFormat nc ec).nodes.length =
      g.nodes.length
    rw [hrtnodes, hparsed, reparseNodes_length, hperm.length_eq]
  · -- type distribution
    intro k
    rw [hrtnodes, hparsed,
      countKind_of_map_kind_eq (reparseNodes_kinds ns nc) k,
      countKind_perm hperm k]
  · -- every surviving edge is an original group-to-group edge
    intro e' he'
    rw [hedges] at he'
    have hmem := List.mem_filter.mp he'
    obtain ⟨e, he, h1, h2⟩ := by
      have := parseEdgesList_serialized_mem g.edges ec e' (by
        rw [hse] at hmem
        exact hmem.1)
      exact this
    have hpred := hmem.2
    simp only [decide_eq_true_eq] at hpred
    have hfrom : e'.fromNode ∈ parsed.map CanvasNode.id := by
      obtain ⟨a, ha, hk⟩ := mapHas_iff.mp hpred.1
      exact List.mem_map.mpr ⟨a, ha, hk⟩
    have hto : e'.toNode ∈ parsed.map CanvasNode.id := by
      obtain ⟨a, ha, hk⟩ := mapHas_iff.mp hpred.2
      exact List.mem_map.mpr ⟨a, ha, hk⟩
    rw [h1] at hfrom
    rw [h2] at hto
    refine ⟨e, he, h1, h2, ?_, ?_⟩
    · exact (hfresh e he).1 (by rw [hparse]; exact hfrom)
    · exact (hfresh e he).2 (by rw [hparse]; exact hto)
  · -- every original group-to-group edge survives
    intro e he hgf hgt
    obtain ⟨e', he', h1, h2⟩ := parseEdgesList_serialized_surj g.edges ec e he
      (hne e he).1 (hne e he).2
    refine ⟨e', ?_, h1, h2⟩
    rw [hedges]
    refine List.mem_filter.mpr ⟨by rw [hse]; exact he', ?_⟩
    have hf' : mapHas CanvasNode.id parsed e'.fromNode = true := by
      obtain ⟨a, ha, hai⟩ := List.mem_map.mp (hgroup_sub _ hgf)
      exact mapHas_iff.mpr ⟨a, ha, by rw [hai, h1]⟩
    have ht' : mapHas CanvasNode.id parsed e'.toNode = true := by
      obtain ⟨a, ha, hai⟩ := List.mem_map.mp (hgroup_sub _ hgt)
      exact mapHas_iff.mpr ⟨a, ha, by rw [hai, h2]⟩
    simp [hf', ht']

/-- Witness for C1 (amended) at a concrete graph. -/
theorem graph_roundtrip_amended_witness :
    (CanvasGraph.fromJSON sampleRTGraph.toCanvasFormat 0 0).nodeCount =
      sampleRTGraph.nodeCount :=
  (graph_roundtrip_amended sampleRTGraph 0 0 (by decide) (by decide)
    (by decide) (by decide) (by decide)).1

theorem pairIndices_mem {n i j : ℕ} :
    (i, j) ∈ pairIndices n ↔ i < j ∧ j < n := by
  constructor
  · intro h
    simp only [pairIndices, List.mem_flatMap, List.mem_map, List.mem_filter,
      List.mem_range, decide_eq_true_eq] at h
    obtain ⟨a, ha, b, ⟨hb, hab⟩, heq⟩ := h
    cases heq
    exact ⟨hab, hb⟩
  · intro ⟨h1, h2⟩
    simp only [pairIndices, List.mem_flatMap, List.mem_map, List.mem_filter,
      List.mem_range, decide_eq_true_eq]
    exact ⟨i, lt_trans h1 h2, j, ⟨h2, h1⟩, rfl⟩

theorem foldl_const {γ δ : Type} (f : γ → δ → γ) (st : γ) (l : List δ)
    (h : ∀ x ∈ l, f st x = st) : l.foldl f st = st := by
  induction l with
  | nil => rfl
  | cons x xs ih =>
    simp only [List.foldl_cons, h x (List.mem_cons_self _ _)]
    exact ih (fun y hy => h y (List.mem_cons_of_mem _ hy))

/-- C8: if no pair of bounding boxes overlaps on entry, one pass of
`resolveOverlaps` reports no overlap, the loop stops after that single
pass, and every position is exactly unchanged (for any iteration budget,
any square-root oracle and any random stream). -/
theorem resolveOverlaps_no_overlap_id (sq : ℚ → ℚ) (rand : ℕ → ℚ)
    (opts : CanvasBuilderOptions) (nodes : List CanvasNode) (iterations : ℕ)
    (h : ∀ j < nodes.length, ∀ i < j,
      (nodes.getD i default).overlaps (nodes.getD j default) = false) :
    resolveOverlaps sq rand opts nodes iterations = nodes ∧
    resolvePass sq rand (max opts.nodeWidth opts.nodeHeight + 20) nodes 0 =
      (nodes, 0, false) := by
  have hpass : ∀ (md : ℚ) (k : ℕ),
      resolvePass sq rand md nodes k = (nodes, k, false) := by
    intro md k
    unfold resolvePass
    apply foldl_const
    intro ij hij
    rcases ij with ⟨i, j⟩
    obtain ⟨h1, h2⟩ := pairIndices_mem.mp hij
    have hov := h j h2 i h1
    simp only [List.getD, List.get?_eq_getElem?] at hov
    simp [resolvePassStep, hov]
  refine ⟨?_, hpass _ 0⟩
  cases iterations with
  | zero => rfl
  | succ iter =>
    show resolveOverlapsLoop sq rand _ (iter + 1) nodes 0 = nodes
    unfold resolveOverlapsLoop
    rw [hpass]
    simp

/-- Witness for C8 at a concrete non-overlapping layout. -/
theorem resolveOverlaps_no_overlap_id_witness :
    resolveOverlaps (fun q => q) (fun _ => 0) {} sampleDistantNodes 10 =
      sampleDistantNodes :=
  (resolveOverlaps_no_overlap_id (fun q => q) (fun _ => 0) {}
    sampleDistantNodes 10 (by
      intro j hj i hi
      simp only [sampleDistantNodes, List.length_cons, List.length_nil] at hj
      interval_cases j <;> interval_cases i <;>
        simp [sampleDistantNodes, CanvasNode.overlaps, CanvasNode.bottomRight,
          CanvasNode.topLeft, CanvasNode.position, CanvasNode.dimension,
          List.getD] <;> norm_num)).1

/-! ### Edge derivation (C7): lemmas -/

theorem pairKey_comm (a b : String) : pairKey a b = pairKey b a := by
  unfold pairKey
  by_cases hab : a ≤ b
  · by_cases hba : b ≤ a
    · have : a = b := le_antisymm hab hba
      subst this
      rfl
    · rw [if_pos hab, if_neg hba]
  · have hba : b ≤ a := le_of_not_le hab
    rw [if_neg hab, if_pos hba]

theorem connects_pairKey {e : CanvasEdge} {x y : String}
    (h : e.connects x y = true) : pairKey e.fromNode e.toNode = pairKey x y := by
  simp only [CanvasEdge.connects, Bool.decide_or, Bool.or_eq_true,
    decide_eq_true_eq] at h
  rcases h with ⟨h1, h2⟩ | ⟨h1, h2⟩
  · rw [h1, h2]
  · rw [h1, h2, pairKey_comm]

theorem builderCosineSimilarity_comm (sq : ℚ → ℚ) (a b : List ℚ) :
    builderCosineSimilarity sq a b = builderCosineSimilarity sq b a := by
  unfold builderCosineSimilarity cosineSimilarityCore
  by_cases h : a.length = b.length
  · have hz : List.zipWith (· * ·) a b = List.zipWith (· * ·) b a :=
      List.zipWith_comm_of_comm _ (fun x y => mul_comm x y) a b
    rw [if_neg (show ¬(a.length ≠ b.length) from fun hc => hc h),
      if_neg (show ¬(b.length ≠ a.length) from fun hc => hc h.symm), hz]
    by_cases hA : sq ((List.zipWith (· * ·) a a).sum) = 0
    · rw [if_pos (Or.inl hA), if_pos (Or.inr hA)]
    · by_cases hB : sq ((List.zipWith (· * ·) b b).sum) = 0
      · rw [if_pos (Or.inr hB), if_pos (Or.inl hB)]
      · rw [if_neg (fun hc => hc.elim hA hB), if_neg (fun hc => hc.elim hB hA),
          mul_comm]
  · rw [if_pos h, if_pos (fun hc => h hc.symm)]

theorem getD_mem_of_lt {α : Type} {d : α} {l : List α} {i : ℕ}
    (h : i < l.length) : l.getD i d ∈ l := by
  rw [List.getD_eq_getElem?_getD, List.getElem?_eq_getElem h]
  exact List.getElem_mem h

theorem mem_mappedIds_of (notes : List NoteEmbedding)
    (nodeMap : List (String × CanvasNode)) {i : ℕ} (hi : i < notes.length)
    {A : CanvasNode} (h : noteNode notes nodeMap i = some A) :
    A.id ∈ mappedIds notes nodeMap := by
  refine List.mem_filterMap.mpr ⟨notes.getD i default, getD_mem_of_lt hi, ?_⟩
  unfold noteNode at h
  rw [h]
  rfl

/-- Case analysis of one `createEdges` iteration: either the state is
unchanged, or a fresh edge for the pair is appended together with its
key. -/
theorem createEdgesStep_cases (sq : ℚ → ℚ) (notes : List NoteEmbedding)
    (nodeMap : List (String × CanvasNode)) (t : ℚ) (st : EdgeBuildState)
    (ij : ℕ × ℕ) :
    createEdgesStep sq notes nodeMap t st ij = st ∨
    ∃ A B, noteNode notes nodeMap ij.1 = some A ∧
      noteNode notes nodeMap ij.2 = some B ∧
      t ≤ noteSim sq notes ij.1 ij.2 ∧
      pairKey A.id B.id ∉ st.processed ∧
      createEdgesStep sq notes nodeMap t st ij =
        ⟨st.edges ++ [{ id := "edge-" ++ toString (st.counter + 1),
                        fromNode := A.id, toNode := B.id,
                        fromEnd := some "none", toEnd := some "none",
                        label := some (percentLabel
                          (noteSim sq notes ij.1 ij.2)) }],
         st.processed ++ [pairKey A.id B.id], st.counter + 1⟩ := by
  unfold createEdgesStep
  split
  · next nodeA nodeB hA hB =>
    dsimp only
    by_cases hsim : t ≤ builderCosineSimilarity sq
        (notes.getD ij.1 default).vector (notes.getD ij.2 default).vector
    · rw [if_pos hsim]
      by_cases hkey : pairKey nodeA.id nodeB.id ∈ st.processed
      · rw [if_pos hkey]
        exact .inl rfl
      · rw [if_neg hkey]
        refine .inr ⟨nodeA, nodeB, hA, hB, hsim, hkey, ?_⟩
        rfl
    · rw [if_neg hsim]
      exact .inl rfl
  · next h1 h2 =>
    refine .inl ?_
    dsimp only
    split <;> rfl

/-- Refined case analysis when the pair qualifies (similarity above the
threshold, both nodes found): the outcome depends only on whether the key
was already processed. -/
theorem createEdgesStep_of_good (sq : ℚ → ℚ) (notes : List NoteEmbedding)
    (nodeMap : List (String × CanvasNode)) (t : ℚ) (st : EdgeBuildState)
    (ij : ℕ × ℕ) {A B : CanvasNode}
    (hA : noteNode notes nodeMap ij.1 = some A)
    (hB : noteNode notes nodeMap ij.2 = some B)
    (hsim : t ≤ noteSim sq notes ij.1 ij.2) :
    (pairKey A.id B.id ∈ st.processed ∧
      createEdgesStep sq notes nodeMap t st ij = st) ∨
    (pairKey A.id B.id ∉ st.processed ∧
      createEdgesStep sq notes nodeMap t st ij =
        ⟨st.edges ++ [{ id := "edge-" ++ toString (st.counter + 1),
                        fromNode := A.id, toNode := B.id,
                        fromEnd := some "none", toEnd := some "none",
                        label := some (percentLabel
                          (noteSim sq notes ij.1 ij.2)) }],
         st.processed ++ [pairKey A.id B.id], st.counter + 1⟩) := by
  have hA' : mapGet nodeMap (notes.getD ij.1 default).noteId = some A := hA
  have hB' : mapGet nodeMap (notes.getD ij.2 default).noteId = some B := hB
  have hsim' : t ≤ builderCosineSimilarity sq
      (notes.getD ij.1 default).vector (notes.getD ij.2 default).vector := hsim
  unfold createEdgesStep
  dsimp only
  rw [hA', hB', if_pos hsim']
  dsimp only
  by_cases hkey : pairKey A.id B.id ∈ st.processed
  · rw [if_pos hkey]
    exact .inl ⟨hkey, rfl⟩
  · rw [if_neg hkey]
    exact .inr ⟨hkey, rfl⟩

theorem createEdgesStep_edges_mono (sq : ℚ → ℚ) (notes : List NoteEmbedding)
    (nodeMap : List (String × CanvasNode)) (t : ℚ) (st : EdgeBuildState)
    (ij : ℕ × ℕ) {e : CanvasEdge} (he : e ∈ st.edges) :
    e ∈ (createEdgesStep sq notes nodeMap t st ij).edges := by
  rcases createEdgesStep_cases sq notes nodeMap t st ij with heq |
    ⟨A, B, _, _, _, _, heq⟩ <;> rw [heq]
  · exact he
  · exact List.mem_append_left _ he

theorem createEdges_foldl_edges_mono (sq : ℚ → ℚ)
    (notes : List NoteEmbedding) (nodeMap : List (String × CanvasNode))
    (t : ℚ) (l : List (ℕ × ℕ)) (st : EdgeBuildState) {e : CanvasEdge}
    (he : e ∈ st.edges) :
    e ∈ (l.foldl (createEdgesStep sq notes nodeMap t) st).edges := by
  induction l generalizing st with
  | nil => exact he
  | cons x xs ih =>
    exact ih _ (createEdgesStep_edges_mono sq notes nodeMap t st x he)

theorem edgeInv_step (sq : ℚ → ℚ) (notes : List NoteEmbedding)
    (nodeMap : List (String × CanvasNode)) (t : ℚ) {st : EdgeBuildState}
    (hInv : EdgeInv sq notes nodeMap t st) {ij : ℕ × ℕ}
    (hij : ij ∈ pairIndices notes.length) :
    EdgeInv sq notes nodeMap t (createEdgesStep sq notes nodeMap t st ij) := by
  obtain ⟨inv1, inv2, inv3⟩ := hInv
  rcases ij with ⟨i, j⟩
  obtain ⟨hij1, hij2⟩ := pairIndices_mem.mp hij
  rcases createEdgesStep_cases sq notes nodeMap t st (i, j) with heq |
    ⟨A, B, hA, hB, hsim, hkey, heq⟩
  · rw [heq]; exact ⟨inv1, inv2, inv3⟩
  · rw [heq]
    refine ⟨?_, ?_, ?_⟩
    · intro e he
      rcases List.mem_append.mp he with he' | he'
      · obtain ⟨k1, k2, k3, k4⟩ := inv1 e he'
        exact ⟨List.mem_append_left _ k1, k2, k3, k4⟩
      · rw [List.mem_singleton.mp he']
        refine ⟨List.mem_append_right _ (List.mem_singleton.mpr rfl),
          mem_mappedIds_of notes nodeMap (lt_trans hij1 hij2) hA,
          mem_mappedIds_of notes nodeMap hij2 hB,
          i, j, A, B, hij1, hij2, hsim, hA, hB, rfl, rfl⟩
    · intro k hk
      rcases List.mem_append.mp hk with hk' | hk'
      · obtain ⟨e, he, hke⟩ := inv2 k hk'
        exact ⟨e, List.mem_append_left _ he, hke⟩
      · refine ⟨_, List.mem_append_right _ (List.mem_singleton.mpr rfl),
          (List.mem_singleton.mp hk') ▸ rfl⟩
    · rw [List.pairwise_append]
      refine ⟨inv3, List.pairwise_singleton _ _, ?_⟩
      intro e1 he1 e2 he2 hconn
      rw [List.mem_singleton.mp he2] at hconn
      have hkeq := connects_pairKey hconn
      have := (inv1 e1 he1).1
      rw [← hkeq] at this
      exact hkey this

theorem edgeInv_fold (sq : ℚ → ℚ) (notes : List NoteEmbedding)
    (nodeMap : List (String × CanvasNode)) (t : ℚ) (l : List (ℕ × ℕ))
    (st : EdgeBuildState) (hl : ∀ ij ∈ l, ij ∈ pairIndices notes.length)
    (hInv : EdgeInv sq notes nodeMap t st) :
    EdgeInv sq notes nodeMap t
      (l.foldl (createEdgesStep sq notes nodeMap t) st) := by
  induction l generalizing st with
  | nil => exact hInv
  | cons x xs ih =>
    exact ih _ (fun ij h => hl ij (List.mem_cons_of_mem _ h))
      (edgeInv_step sq notes nodeMap t hInv (hl x (List.mem_cons_self _ _)))

/-- Completeness of the `createEdges` fold under key injectivity: every
qualifying pair in the remaining work list ends up connected in the final
edge list. -/
theorem createEdges_fold_complete (sq : ℚ → ℚ) (notes : List NoteEmbedding)
    (nodeMap : List (String × CanvasNode)) (t : ℚ)
    (hinj : ∀ a ∈ mappedIds notes nodeMap, ∀ b ∈ mappedIds notes nodeMap,
      ∀ a' ∈ mappedIds notes nodeMap, ∀ b' ∈ mappedIds notes nodeMap,
      pairKey a b = pairKey a' b' → (a = a' ∧ b = b') ∨ (a = b' ∧ b = a'))
    (l : List (ℕ × ℕ)) (st : EdgeBuildState)
    (hl : ∀ ij ∈ l, ij ∈ pairIndices notes.length)
    (hInv : EdgeInv sq notes nodeMap t st) :
    ∀ ij ∈ l, ∀ A B : CanvasNode, noteNode notes nodeMap ij.1 = some A →
      noteNode notes nodeMap ij.2 = some B →
      t ≤ noteSim sq notes ij.1 ij.2 →
      ∃ e ∈ (l.foldl (createEdgesStep sq notes nodeMap t) st).edges,
        e.connects A.id B.id = true := by
  induction l generalizing st with
  | nil => intro ij h; cases h
  | cons x xs ih =>
    intro ij hij A B hA hB hsim
    have hxmem := hl x (List.mem_cons_self _ _)
    have hl' : ∀ ij ∈ xs, ij ∈ pairIndices notes.length :=
      fun ij h => hl ij (List.mem_cons_of_mem _ h)
    have hInv' := edgeInv_step sq notes nodeMap t hInv hxmem
    rcases List.mem_cons.mp hij with rfl | hij'
    · -- this very pair is processed first
      obtain ⟨hi1, hi2⟩ := pairIndices_mem.mp
        (show (ij.1, ij.2) ∈ pairIndices notes.length from hxmem)
      rcases createEdgesStep_of_good sq notes nodeMap t st ij hA hB hsim with
        ⟨hkey, heq⟩ | ⟨hkey, heq⟩
      · -- the key was already processed: the invariant provides the edge
        obtain ⟨e, he, hke⟩ := hInv.2.1 _ hkey
        obtain ⟨_, hm1, hm2, _⟩ := hInv.1 e he
        have hAmem := mem_mappedIds_of notes nodeMap (lt_trans hi1 hi2) hA
        have hBmem := mem_mappedIds_of notes nodeMap hi2 hB
        have hids := hinj _ hm1 _ hm2 _ hAmem _ hBmem hke
        refine ⟨e, ?_, ?_⟩
        · refine createEdges_foldl_edges_mono sq notes nodeMap t xs _ ?_
          rw [heq]
          exact he
        · simp only [CanvasEdge.connects, Bool.decide_or, Bool.or_eq_true,
            decide_eq_true_eq]
          rcases hids with ⟨h1, h2⟩ | ⟨h1, h2⟩
          · exact .inl ⟨h1, h2⟩
          · exact .inr ⟨h1, h2⟩
      · -- a fresh edge for exactly this pair is appended
        refine ⟨{ id := "edge-" ++ toString (st.counter + 1),
                  fromNode := A.id, toNode := B.id, fromEnd := some "none",
                  toEnd := some "none",
                  label := some (percentLabel (noteSim sq notes ij.1 ij.2)) },
          ?_, ?_⟩
        · refine createEdges_foldl_edges_mono sq notes nodeMap t xs _ ?_
          rw [heq]
          exact List.mem_append_right _ (List.mem_singleton.mpr rfl)
        · simp [CanvasEdge.connects]
    · exact ih _ hl' hInv' ij hij' A B hA hB hsim

/-- C7 (amended): `createEdges` produces at most one edge per unordered
pair of node ids; cosine similarity is symmetric; every produced edge
comes from a note pair `(i, j)`, `i < j`, whose similarity meets the
threshold and whose nodes are in the map; and — provided distinct
unordered id pairs have distinct sorted-join keys (which ids containing
the `"-"` separator can violate) — every such qualifying pair is
connected by an edge in the result. -/
theorem createEdges_amended (sq : ℚ → ℚ) (notes : List NoteEmbedding)
    (nodeMap : List (String × CanvasNode)) (t : ℚ) (c : ℕ)
    (hinj : ∀ a ∈ mappedIds notes nodeMap, ∀ b ∈ mappedIds notes nodeMap,
      ∀ a' ∈ mappedIds notes nodeMap, ∀ b' ∈ mappedIds notes nodeMap,
      pairKey a b = pairKey a' b' → (a = a' ∧ b = b') ∨ (a = b' ∧ b = a')) :
    ((createEdges sq notes nodeMap t c).1.Pairwise
      (fun e1 e2 => ¬ e2.connects e1.fromNode e1.toNode = true)) ∧
    (∀ a b : List ℚ,
      builderCosineSimilarity sq a b = builderCosineSimilarity sq b a) ∧
    (∀ e ∈ (createEdges sq notes nodeMap t c).1,
      ∃ i j A B, i < j ∧ j < notes.length ∧ t ≤ noteSim sq notes i j ∧
        noteNode notes nodeMap i = some A ∧
        noteNode notes nodeMap j = some B ∧
        e.fromNode = A.id ∧ e.toNode = B.id) ∧
    (∀ i j, i < j → j < notes.length → ∀ A B : CanvasNode,
      noteNode notes nodeMap i = some A → noteNode notes nodeMap j = some B →
      t ≤ noteSim sq notes i j →
      ∃ e ∈ (createEdges sq notes nodeMap t c).1,
        e.connects A.id B.id = true) := by
  have hInv0 : EdgeInv sq notes nodeMap t ⟨[], [], c⟩ := by
    unfold EdgeInv
    refine ⟨?_, ?_, ?_⟩
    · intro e he
      exact absurd he (by simp)
    · intro k hk
      exact absurd hk (by simp)
    · exact List.Pairwise.nil
  have hl : ∀ ij ∈ pairIndices notes.length, ij ∈ pairIndices notes.length :=
    fun _ h => h
  have hfold := edgeInv_fold sq notes nodeMap t (pairIndices notes.length)
    ⟨[], [], c⟩ hl hInv0
  have hedges : (createEdges sq notes nodeMap t c).1 =
      ((pairIndices notes.length).foldl (createEdgesStep sq notes nodeMap t)
        ⟨[], [], c⟩).edges := rfl
  refine ⟨?_, builderCosineSimilarity_comm sq, ?_, ?_⟩
  · rw [hedges]
    exact hfold.2.2
  · intro e he
    rw [hedges] at he
    obtain ⟨_, _, _, h4⟩ := hfold.1 e he
    exact h4
  · intro i j hij hjn A B hA hB hsim
    have := createEdges_fold_complete sq notes nodeMap t hinj
      (pairIndices notes.length) ⟨[], [], c⟩ hl hInv0 (i, j)
      (pairIndices_mem.mpr ⟨hij, hjn⟩) A B hA hB hsim
    rw [hedges]
    exact this

set_option maxHeartbeats 2000000 in
/-- C7 counterexample: with node ids `"a-b"`, `"c"`, `"a"`, `"b-c"` the
pairs `{"a-b", "c"}` and `{"a", "b-c"}` share the sorted-join key
`"a-b-c"`, so after the first pair is processed, the distinct pair
`("a", "b-c")` — whose notes are distinct, whose nodes are in the map
and whose cosine similarity 1 meets the threshold 1/2 — gets **no** edge:
the claimed "iff" fails. -/
theorem createEdges_counterexample :
    noteSim (fun q => q) ceNotes 2 3 = 1 ∧ ((1 : ℚ)/2 ≤ 1) ∧
    noteNode ceNotes ceNodeMap 2 = some (ceNode "a") ∧
    noteNode ceNotes ceNodeMap 3 = some (ceNode "b-c") ∧
    (createEdges (fun q => q) ceNotes ceNodeMap (1/2) 0).1.filter
      (fun e => e.connects "a" "b-c") = [] := by
  refine ⟨?_, by norm_num,
    by norm_num +decide [noteNode, mapGet, ceNotes, ceNodeMap, List.getD],
    by norm_num +decide [noteNode, mapGet, ceNotes, ceNodeMap, List.getD],
    ?_⟩
  · norm_num [noteSim, builderCosineSimilarity, cosineSimilarityCore,
      ceNotes, List.getD]
  · norm_num +decide [createEdges, createEdgesStep, pairIndices, noteSim,
      noteNode, builderCosineSimilarity, cosineSimilarityCore, mapGet,
      pairKey, percentLabel, CanvasEdge.createConnection, generateEdgeId,
      CanvasEdge.connects, ceNotes, ceNodeMap, ceNode, List.getD, jsRound,
      List.range_succ]

/-- Witness for C7 at a concrete two-note instance: the qualifying pair is
connected in the output. -/
theorem createEdges_amended_witness :
    ∃ e ∈ (createEdges (fun q => q) wNotes wNodeMap (1/2) 0).1,
      e.connects (ceNode "A").id (ceNode "B").id = true :=
  (createEdges_amended (fun q => q) wNotes wNodeMap (1/2) 0
      (by
        have hm : mappedIds wNotes wNodeMap = ["A", "B"] := rfl
        simp only [hm, List.mem_cons, List.mem_singleton, List.not_mem_nil,
          or_false]
        intro a ha b hb a' ha' b' hb'
        rcases ha with rfl | rfl <;> rcases hb with rfl | rfl <;>
          rcases ha' with rfl | rfl <;> rcases hb' with rfl | rfl <;>
          simp +decide [pairKey])).2.2.2
    0 1 (by decide) (by decide) (ceNode "A") (ceNode "B")
    (by norm_num +decide [noteNode, mapGet, wNotes, wNodeMap, List.getD])
    (by norm_num +decide [noteNode, mapGet, wNotes, wNodeMap, List.getD])
    (by norm_num [noteSim, builderCosineSimilarity, cosineSimilarityCore,
      wNotes, List.getD])

/-! ### MDS helper lemmas -/

theorem exceptMapM_ok {α β : Type} (f : α → Except String β) (l : List α)
    (h : ∀ a ∈ l, ∃ b, f a = .ok b) :
    ∃ bs, l.mapM f = .ok bs ∧ bs.length = l.length := by
  induction l with
  | nil => exact ⟨[], rfl, rfl⟩
  | cons a l ih =>
    obtain ⟨b, hb⟩ := h a (List.mem_cons_self _ _)
    obtain ⟨bs, hbs, hlen⟩ := ih (fun x hx => h x (List.mem_cons_of_mem _ hx))
    refine ⟨b :: bs, ?_, by simp [hlen]⟩
    rw [List.mapM_cons, hb, hbs]
    rfl

theorem map_getD_range {α : Type} (l : List α) (d : α) :
    (List.range l.length).map (fun i => l.getD i d) = l := by
  induction l with
  | nil => rfl
  | cons a t ih =>
    rw [List.length_cons, List.range_succ_eq_map, List.map_cons,
      List.map_map]
    simp only [List.getD_cons_zero, Function.comp_def, List.getD_cons_succ]
    rw [ih]

theorem foldl_mapSet_append {α : Type} (key : α → String) (ps m0 : List α)
    (h : ((m0 ++ ps).map key).Nodup) : ps.foldl (mapSet key) m0 = m0 ++ ps := by
  induction ps generalizing m0 with
  | nil => simp
  | cons a ps ih =>
    have hfresh : ∀ b ∈ m0, key b ≠ key a := by
      intro b hb hcontra
      have hmem1 : key b ∈ m0.map key := List.mem_map.mpr ⟨b, hb, rfl⟩
      have h' : (m0.map key ++ (a :: ps).map key).Nodup := by simpa using h
      exact (List.nodup_append.mp h').2.2 hmem1 (by simp [hcontra])
    have hstep : mapSet key m0 a = m0 ++ [a] := mapSet_append hfresh
    rw [List.foldl_cons, hstep, ih (m0 ++ [a]) (by simpa using h)]
    simp

theorem mem_of_mem_foldl_mapSet {α : Type} (key : α → String)
    (l m0 : List α) : ∀ p ∈ l.foldl (mapSet key) m0, p ∈ m0 ∨ p ∈ l := by
  induction l generalizing m0 with
  | nil => exact fun p hp => .inl hp
  | cons a l ih =>
    intro p hp
    rcases ih (mapSet key m0 a) p hp with h | h
    · rcases mem_of_mem_mapSet h with h' | h'
      · exact .inl h'
      · exact .inr (h' ▸ List.mem_cons_self _ _)
    · exact .inr (List.mem_cons_of_mem _ h)

theorem buildCoordMap_eq (ids : List String) (coords : List Coordinate)
    (h : ids.Nodup) :
    buildCoordMap ids coords = (List.range ids.length).map
      (fun i => (ids.getD i "", coords.getD i ⟨0, 0⟩)) := by
  unfold buildCoordMap
  rw [show (List.range ids.length).foldl
      (fun m i => mapSet Prod.fst m (ids.getD i "", coords.getD i ⟨0, 0⟩)) [] =
      ((List.range ids.length).map
        (fun i => (ids.getD i "", coords.getD i ⟨0, 0⟩))).foldl
        (mapSet Prod.fst) [] from (List.foldl_map _ _ _ _).symm]
  rw [foldl_mapSet_append]
  · simp
  · rw [List.nil_append, List.map_map]
    have hcomp : (Prod.fst ∘ fun i =>
        (ids.getD i "", coords.getD i (⟨0, 0⟩ : Coordinate))) =
        fun i => ids.getD i "" := rfl
    rw [hcomp, map_getD_range]
    exact h

theorem foldl_min_le_init (t : List ℚ) : ∀ b : ℚ, t.foldl min b ≤ b := by
  induction t with
  | nil => exact fun b => le_refl b
  | cons x xs ih =>
    intro b
    exact le_trans (ih (min b x)) (min_le_left b x)

theorem listMin_le {l : List ℚ} {a : ℚ} (h : a ∈ l) : listMin l ≤ a := by
  match l, h with
  | b :: t, h =>
    rcases List.mem_cons.mp h with rfl | h'
    · exact foldl_min_le_init t a
    · show t.foldl min b ≤ a
      induction t generalizing b with
      | nil => cases h'
      | cons x xs ih =>
        rcases List.mem_cons.mp h' with rfl | h''
        · exact le_trans (foldl_min_le_init xs (min b a)) (min_le_right b a)
        · exact ih (min b x) (List.mem_cons_of_mem _ h'') h''

theorem init_le_foldl_max (t : List ℚ) : ∀ b : ℚ, b ≤ t.foldl max b := by
  induction t with
  | nil => exact fun b => le_refl b
  | cons x xs ih =>
    intro b
    exact le_trans (le_max_left b x) (ih (max b x))

theorem le_listMax {l : List ℚ} {a : ℚ} (h : a ∈ l) : a ≤ listMax l := by
  match l, h with
  | b :: t, h =>
    rcases List.mem_cons.mp h with rfl | h'
    · exact init_le_foldl_max t a
    · show a ≤ t.foldl max b
      induction t generalizing b with
      | nil => cases h'
      | cons x xs ih =>
        rcases List.mem_cons.mp h' with rfl | h''
        · exact le_trans (le_max_right b a) (init_le_foldl_max xs (max b a))
        · exact ih (max b x) (List.mem_cons_of_mem _ h'') h''

theorem adjustRange_eq_of_eq (v : ℚ) : adjustRange v v = (v - 1, v + 1) := by
  simp [adjustRange]

theorem adjustRange_lt {lo hi : ℚ} (h : lo ≤ hi) :
    (adjustRange lo hi).1 < (adjustRange lo hi).2 := by
  unfold adjustRange
  split
  · next heq => simp only; linarith
  · next hne => simp only; exact lt_of_le_of_ne h (fun hc => hne hc.symm)

theorem adjustRange_bounds {lo hi a : ℚ} (h1 : lo ≤ a) (h2 : a ≤ hi) :
    (adjustRange lo hi).1 ≤ a ∧ a ≤ (adjustRange lo hi).2 := by
  unfold adjustRange
  split <;> constructor <;> simp only <;> linarith

/-- Every coordinate produced by `scaleToCanvas` is integral (both
components are rounded), with no hypotheses at all. -/
theorem scaleToCanvas_integral (opts : MDSOptions) (x y : List ℚ) :
    ∀ c ∈ scaleToCanvas opts x y,
      (∃ kx : ℤ, c.x = (kx : ℚ)) ∧ (∃ ky : ℤ, c.y = (ky : ℚ)) := by
  intro c hc
  obtain ⟨i, _, heq⟩ := List.mem_map.mp hc
  exact ⟨⟨_, by rw [← heq]⟩, ⟨_, by rw [← heq]⟩⟩

/-- The bounds law for `scaleToCanvas`: with non-negative integral
padding and integral canvas sizes at least twice the padding, every
produced coordinate lies in `[padding, size − padding]` on both axes. -/
theorem scaleToCanvas_bounds (opts : MDSOptions) (x y : List ℚ)
    (hlen : y.length = x.length)
    (hpad : 0 ≤ opts.padding)
    (hW : 2 * opts.padding ≤ opts.canvasWidth)
    (hH : 2 * opts.padding ≤ opts.canvasHeight)
    (hpint : ∃ k : ℤ, opts.padding = (k : ℚ))
    (hWint : ∃ k : ℤ, opts.canvasWidth = (k : ℚ))
    (hHint : ∃ k : ℤ, opts.canvasHeight = (k : ℚ)) :
    ∀ c ∈ scaleToCanvas opts x y,
      opts.padding ≤ c.x ∧ c.x ≤ opts.canvasWidth - opts.padding ∧
      opts.padding ≤ c.y ∧ c.y ≤ opts.canvasHeight - opts.padding := by
  obtain ⟨a, ha⟩ := hpint
  obtain ⟨b, hb⟩ := hWint
  obtain ⟨d, hd⟩ := hHint
  -- a generic fact about one rounded axis value
  have key : ∀ (p s : ℚ) (pa sb : ℤ) (l : List ℚ) (i : ℕ), i < l.length →
      p = (pa : ℚ) → s = (sb : ℚ) → 0 ≤ p → 2 * p ≤ s →
      p ≤ ((jsRound (p + ((l.getD i 0 - (adjustRange (listMin l) (listMax l)).1) /
          ((adjustRange (listMin l) (listMax l)).2 -
            (adjustRange (listMin l) (listMax l)).1)) * (s - 2 * p)) : ℤ) : ℚ) ∧
      ((jsRound (p + ((l.getD i 0 - (adjustRange (listMin l) (listMax l)).1) /
          ((adjustRange (listMin l) (listMax l)).2 -
            (adjustRange (listMin l) (listMax l)).1)) * (s - 2 * p)) : ℤ) : ℚ) ≤
        s - p := by
    intro p s pa sb l i hi hp hs hp0 hps
    have hmem : l.getD i 0 ∈ l := getD_mem_of_lt hi
    have h1 : listMin l ≤ l.getD i 0 := listMin_le hmem
    have h2 : l.getD i 0 ≤ listMax l := le_listMax hmem
    have hminmax : listMin l ≤ listMax l := le_trans h1 h2
    obtain ⟨hlo, hhi⟩ := adjustRange_bounds h1 h2
    have hpos : (0 : ℚ) < (adjustRange (listMin l) (listMax l)).2 -
        (adjustRange (listMin l) (listMax l)).1 :=
      sub_pos.mpr (adjustRange_lt hminmax)
    set lo := (adjustRange (listMin l) (listMax l)).1
    set hi' := (adjustRange (listMin l) (listMax l)).2
    set tq := (l.getD i 0 - lo) / (hi' - lo) with htq
    have ht0 : 0 ≤ tq := div_nonneg (by linarith) (le_of_lt hpos)
    have ht1 : tq ≤ 1 := by
      rw [htq, div_le_one hpos]
      linarith
    have heff : (0 : ℚ) ≤ s - 2 * p := by linarith
    have hmul0 : 0 ≤ tq * (s - 2 * p) := mul_nonneg ht0 heff
    have hmul1 : tq * (s - 2 * p) ≤ s - 2 * p := by
      calc tq * (s - 2 * p) ≤ 1 * (s - 2 * p) :=
            mul_le_mul_of_nonneg_right ht1 heff
        _ = s - 2 * p := one_mul _
    set q := p + tq * (s - 2 * p) with hq
    have hq1 : p ≤ q := by rw [hq]; linarith
    have hq2 : q ≤ s - p := by rw [hq]; linarith
    constructor
    · rw [hp]
      have : pa ≤ jsRound q := by
        rw [jsRound]
        refine Int.le_floor.mpr ?_
        rw [← hp]
        linarith
      exact_mod_cast this
    · have hub : jsRound q ≤ sb - pa := by
        rw [jsRound]
        have hlt : ⌊q + 1/2⌋ < (sb - pa) + 1 := by
          refine Int.floor_lt.mpr ?_
          push_cast
          rw [← hp, ← hs]
          linarith
        omega
      have hcast : ((jsRound q : ℤ) : ℚ) ≤ ((sb - pa : ℤ) : ℚ) := by
        exact_mod_cast hub
      rw [hp, hs]
      push_cast at hcast ⊢
      linarith
  intro c hc
  obtain ⟨i, hi, heq⟩ := List.mem_map.mp hc
  have hix : i < x.length := List.mem_range.mp hi
  have hiy : i < y.length := by rw [hlen]; exact hix
  obtain ⟨hx1, hx2⟩ := key opts.padding opts.canvasWidth a b x i hix ha hb
    hpad hW
  obtain ⟨hy1, hy2⟩ := key opts.padding opts.canvasHeight a d y i hiy ha hd
    hpad hH
  rw [← heq]
  exact ⟨hx1, hx2, hy1, hy2⟩

/-- The iteration loop preserves the iterate's length. -/
theorem powerIterLoop_length (sq : ℚ → ℚ) (M : List (List ℚ)) (n : ℕ)
    (tol : ℚ) :
    ∀ (fuel : ℕ) (ev : ℚ) (v : List ℚ), v.length = n →
      ((powerIterLoop sq M n tol fuel ev v).2).length = n := by
  intro fuel
  induction fuel with
  | zero => intro ev v hv; exact hv
  | succ fuel ih =>
    intro ev v hv
    show ((powerIterLoop sq M n tol (fuel + 1) ev v).2).length = n
    unfold powerIterLoop
    dsimp only
    split
    · exact hv
    · split
      · simp
      · exact ih _ _ (by simp)

theorem powerIteration_length (sq : ℚ → ℚ) (rand : ℕ → ℚ)
    (maxIterations : ℕ) (tolerance : ℚ) (matrix : List (List ℚ))
    (deflatedMatrix : Option (List (List ℚ))) :
    ((powerIteration sq rand maxIterations tolerance matrix
      deflatedMatrix).2).length = matrix.length := by
  unfold powerIteration
  exact powerIterLoop_length _ _ _ _ _ _ _ (by simp)

theorem extractCoordinates_length (sq : ℚ → ℚ) (rand1 rand2 : ℕ → ℚ)
    (maxIterations : ℕ) (tolerance : ℚ) (B : List (List ℚ)) :
    ((extractCoordinates sq rand1 rand2 maxIterations tolerance B).1).length =
      B.length ∧
    ((extractCoordinates sq rand1 rand2 maxIterations tolerance B).2).length =
      B.length := by
  unfold extractCoordinates
  constructor
  · simp [powerIteration_length]
  · simp [powerIteration_length]

theorem doubleCentering_length (D : List (List ℚ)) :
    (doubleCentering D).length = D.length := by
  simp [doubleCentering]

/-- With equal-dimension vectors, the distance-matrix computation
succeeds and produces one row per vector. -/
theorem computeDistanceMatrixE_ok (sq : ℚ → ℚ) (vectors : List (List ℚ))
    (hdim : ∀ v1 ∈ vectors, ∀ v2 ∈ vectors, v1.length = v2.length) :
    ∃ D, computeDistanceMatrixE sq vectors = .ok D ∧
      D.length = vectors.length := by
  have hcos : ∀ i j, i < vectors.length → j < vectors.length →
      mdsCosineSimilarity sq (vectors.getD i []) (vectors.getD j []) =
        .ok (cosineSimilarityCore sq (vectors.getD i []) (vectors.getD j [])) := by
    intro i j hi hj
    unfold mdsCosineSimilarity
    rw [if_neg]
    intro hne
    exact hne (hdim _ (getD_mem_of_lt hi) _ (getD_mem_of_lt hj))
  have hentry : ∀ i ∈ List.range vectors.length,
      ∃ row, (List.range vectors.length).mapM (fun j =>
        if i = j then pure 0
        else if i < j then do
          let s ← mdsCosineSimilarity sq (vectors.getD i [])
            (vectors.getD j [])
          pure (sq (2 * (1 - s)))
        else do
          let s ← mdsCosineSimilarity sq (vectors.getD j [])
            (vectors.getD i [])
          pure (sq (2 * (1 - s)))) = .ok row := by
    intro i hi
    have hi' : i < vectors.length := List.mem_range.mp hi
    have hin : ∀ j ∈ List.range vectors.length, ∃ b,
        (if i = j then pure 0
        else if i < j then do
          let s ← mdsCosineSimilarity sq (vectors.getD i [])
            (vectors.getD j [])
          pure (sq (2 * (1 - s)))
        else do
          let s ← mdsCosineSimilarity sq (vectors.getD j [])
            (vectors.getD i [])
          pure (sq (2 * (1 - s))) : Except String ℚ) = .ok b := by
      intro j hj
      have hj' : j < vectors.length := List.mem_range.mp hj
      by_cases hij : i = j
      · exact ⟨0, by rw [if_pos hij]; rfl⟩
      · by_cases hlt : i < j
        · refine ⟨sq (2 * (1 - cosineSimilarityCore sq (vectors.getD i [])
            (vectors.getD j []))), ?_⟩
          rw [if_neg hij, if_pos hlt, hcos i j hi' hj']
          rfl
        · refine ⟨sq (2 * (1 - cosineSimilarityCore sq (vectors.getD j [])
            (vectors.getD i []))), ?_⟩
          rw [if_neg hij, if_neg hlt, hcos j i hj' hi']
          rfl
    obtain ⟨row, hrow, _⟩ := exceptMapM_ok _ _ hin
    exact ⟨row, hrow⟩
  obtain ⟨D, hD, hDlen⟩ := exceptMapM_ok _ _ hentry
  exact ⟨D, hD, by rw [hDlen, List.length_range]⟩

theorem scaleToCanvas_length (opts : MDSOptions) (x y : List ℚ) :
    (scaleToCanvas opts x y).length = x.length := by
  simp [scaleToCanvas]

/-- C9: `MDSAlgorithm.run` with exactly one vector returns the single-entry
map placing the id at the canvas centre, for any vector contents, any
options, any square-root oracle and any random streams; with zero vectors
it returns the empty map, not an error. -/
theorem mds_run_base_cases (sq : ℚ → ℚ) (rand1 rand2 : ℕ → ℚ)
    (opts : MDSOptions) :
    (∀ (id : String) (v : List ℚ),
      MDSrun sq rand1 rand2 opts ⟨[v], [id]⟩ =
        .ok [(id, ⟨opts.canvasWidth / 2, opts.canvasHeight / 2⟩)]) ∧
    MDSrun sq rand1 rand2 opts ⟨[], []⟩ = .ok [] :=
  ⟨fun _ _ => rfl, rfl⟩

/-- For `N ≥ 2` equal-dimension vectors, `run` reaches the full pipeline
and succeeds, returning the map built from the scaled coordinates. -/
theorem MDSrun_eq_of_two_le (sq : ℚ → ℚ) (rand1 rand2 : ℕ → ℚ)
    (opts : MDSOptions) (vectors : List (List ℚ)) (ids : List String)
    (hlen : vectors.length = ids.length) (hN2 : 2 ≤ vectors.length)
    (hdim : ∀ v1 ∈ vectors, ∀ v2 ∈ vectors, v1.length = v2.length) :
    ∃ D, computeDistanceMatrixE sq vectors = .ok D ∧
      D.length = vectors.length ∧
      MDSrun sq rand1 rand2 opts ⟨vectors, ids⟩ =
        .ok (buildCoordMap ids (scaleToCanvas opts
          (extractCoordinates sq rand1 rand2 opts.maxIterations
            opts.tolerance (doubleCentering D)).1
          (extractCoordinates sq rand1 rand2 opts.maxIterations
            opts.tolerance (doubleCentering D)).2)) := by
  obtain ⟨D, hD, hDlen⟩ := computeDistanceMatrixE_ok sq vectors hdim
  refine ⟨D, hD, hDlen, ?_⟩
  unfold MDSrun
  rw [if_neg (show ¬(vectors.length ≠ ids.length) from fun hc => hc hlen),
    if_neg (show ¬(vectors.length = 0) by omega),
    if_neg (show ¬(vectors.length = 1) by omega)]
  rw [show (do
    let D ← computeDistanceMatrixE sq vectors
    let B := doubleCentering D
    let xy := extractCoordinates sq rand1 rand2 opts.maxIterations
      opts.tolerance B
    let scaledCoords := scaleToCanvas opts xy.1 xy.2
    pure (buildCoordMap ids scaledCoords) :
      Except String (List (String × Coordinate))) =
    (computeDistanceMatrixE sq vectors).bind (fun D =>
      pure (buildCoordMap ids (scaleToCanvas opts
        (extractCoordinates sq rand1 rand2 opts.maxIterations
          opts.tolerance (doubleCentering D)).1
        (extractCoordinates sq rand1 rand2 opts.maxIterations
          opts.tolerance (doubleCentering D)).2))) from rfl, hD]
  rfl

/-- C4: bounds law for `MDSAlgorithm.run`: for `N ≥ 1` equal-dimension
vectors and `N` distinct matching ids (with non-negative integral padding
and integral canvas sizes at least twice the padding — the defaults
qualify), the run succeeds with exactly one coordinate per input id, and
every coordinate lies in `[padding, size − padding]` on both axes;
moreover a degenerate axis is widened to `[value − 1, value + 1]`, whose
width is positive, so the rescaling never divides by zero. -/
theorem mds_run_bounds (sq : ℚ → ℚ) (rand1 rand2 : ℕ → ℚ)
    (opts : MDSOptions) (vectors : List (List ℚ)) (ids : List String)
    (hlen : vectors.length = ids.length)
    (hN : 1 ≤ vectors.length)
    (hdim : ∀ v1 ∈ vectors, ∀ v2 ∈ vectors, v1.length = v2.length)
    (hnodup : ids.Nodup)
    (hpad : 0 ≤ opts.padding)
    (hW : 2 * opts.padding ≤ opts.canvasWidth)
    (hH : 2 * opts.padding ≤ opts.canvasHeight)
    (hpint : ∃ k : ℤ, opts.padding = (k : ℚ))
    (hWint : ∃ k : ℤ, opts.canvasWidth = (k : ℚ))
    (hHint : ∃ k : ℤ, opts.canvasHeight = (k : ℚ)) :
    (∃ m, MDSrun sq rand1 rand2 opts ⟨vectors, ids⟩ = .ok m ∧
      m.map Prod.fst = ids ∧
      ∀ p ∈ m, opts.padding ≤ p.2.x ∧
        p.2.x ≤ opts.canvasWidth - opts.padding ∧
        opts.padding ≤ p.2.y ∧
        p.2.y ≤ opts.canvasHeight - opts.padding) ∧
    (∀ v : ℚ, adjustRange v v = (v - 1, v + 1)) ∧
    (∀ lo hi : ℚ, lo ≤ hi →
      (adjustRange lo hi).1 < (adjustRange lo hi).2) := by
  refine ⟨?_, adjustRange_eq_of_eq, fun lo hi h => adjustRange_lt h⟩
  by_cases h1 : vectors.length = 1
  · -- single vector: the centre of the canvas
    have hids1 : ids.length = 1 := by omega
    obtain ⟨i0, hi0⟩ := List.length_eq_one.mp hids1
    obtain ⟨v0, hv0⟩ := List.length_eq_one.mp h1
    subst hi0 hv0
    refine ⟨[(i0, ⟨opts.canvasWidth / 2, opts.canvasHeight / 2⟩)], rfl, rfl,
      ?_⟩
    intro p hp
    rw [List.mem_singleton.mp hp]
    refine ⟨by dsimp only; linarith, by dsimp only; linarith,
      by dsimp only; linarith, by dsimp only; linarith⟩
  · have hN2 : 2 ≤ vectors.length := by omega
    obtain ⟨D, hD, hDlen, hrun⟩ := MDSrun_eq_of_two_le sq rand1 rand2 opts
      vectors ids hlen hN2 hdim
    set B := doubleCentering D with hB
    set xy := extractCoordinates sq rand1 rand2 opts.maxIterations
      opts.tolerance B with hxy
    set scaled := scaleToCanvas opts xy.1 xy.2 with hscaled
    have hxlen : xy.1.length = vectors.length := by
      rw [hxy, (extractCoordinates_length _ _ _ _ _ _).1, hB,
        doubleCentering_length, hDlen]
    have hylen : xy.2.length = xy.1.length := by
      rw [hxy, (extractCoordinates_length _ _ _ _ _ _).2,
        (extractCoordinates_length _ _ _ _ _ _).1]
    have hslen : scaled.length = ids.length := by
      rw [hscaled, scaleToCanvas_length, hxlen, hlen]
    refine ⟨buildCoordMap ids scaled, hrun, ?_, ?_⟩
    · rw [buildCoordMap_eq ids scaled hnodup, List.map_map]
      exact map_getD_range ids ""
    · intro p hp
      rw [buildCoordMap_eq ids scaled hnodup] at hp
      obtain ⟨i, hi, heq⟩ := List.mem_map.mp hp
      have hilt : i < ids.length := List.mem_range.mp hi
      have hcoord : p.2 = scaled.getD i ⟨0, 0⟩ := by rw [← heq]
      have hmem : scaled.getD i ⟨0, 0⟩ ∈ scaled :=
        getD_mem_of_lt (by rw [hslen]; exact hilt)
      have := scaleToCanvas_bounds opts xy.1 xy.2 hylen hpad hW hH hpint
        hWint hHint _ hmem
      rw [hcoord]
      exact this

/-- C10: for `N ≥ 2` equal-dimension vectors, every coordinate produced
by `MDSAlgorithm.run` has integer-valued `x` and `y` (the canvas scaling
step rounds both axes), for any options, oracle and random streams. -/
theorem mds_run_integer_coords (sq : ℚ → ℚ) (rand1 rand2 : ℕ → ℚ)
    (opts : MDSOptions) (vectors : List (List ℚ)) (ids : List String)
    (hlen : vectors.length = ids.length)
    (hN2 : 2 ≤ vectors.length)
    (hdim : ∀ v1 ∈ vectors, ∀ v2 ∈ vectors, v1.length = v2.length) :
    ∃ m, MDSrun sq rand1 rand2 opts ⟨vectors, ids⟩ = .ok m ∧
      ∀ p ∈ m, (∃ kx : ℤ, p.2.x = (kx : ℚ)) ∧
        (∃ ky : ℤ, p.2.y = (ky : ℚ)) := by
  obtain ⟨D, hD, hDlen, hrun⟩ := MDSrun_eq_of_two_le sq rand1 rand2 opts
    vectors ids hlen hN2 hdim
  set B := doubleCentering D
  set xy := extractCoordinates sq rand1 rand2 opts.maxIterations
    opts.tolerance B
  set scaled := scaleToCanvas opts xy.1 xy.2 with hscaled
  refine ⟨buildCoordMap ids scaled, hrun, ?_⟩
  intro p hp
  have hp' : p ∈ ((List.range ids.length).map
      (fun i => (ids.getD i "", scaled.getD i ⟨0, 0⟩))).foldl
      (mapSet Prod.fst) [] := by
    rw [List.foldl_map]
    exact hp
  rcases mem_of_mem_foldl_mapSet Prod.fst _ [] p hp' with h | h
  · cases h
  · obtain ⟨i, _, heq⟩ := List.mem_map.mp h
    have hcoord : p.2 = scaled.getD i ⟨0, 0⟩ := by rw [← heq]
    rw [hcoord]
    by_cases hi : i < scaled.length
    · exact scaleToCanvas_integral opts xy.1 xy.2 _ (getD_mem_of_lt hi)
    · rw [List.getD_eq_default _ _ (le_of_not_lt hi)]
      exact ⟨⟨0, rfl⟩, ⟨0, rfl⟩⟩

/-- Witness for C4 at a concrete 2-vector input with default options and
a zero iteration budget. -/
theorem mds_run_bounds_witness :
    ∃ m, MDSrun (fun q => q) (fun _ => 1) (fun _ => 1) { maxIterations := 0 }
        ⟨[[1], [0]], ["a", "b"]⟩ = .ok m ∧
      m.map Prod.fst = ["a", "b"] ∧
      ∀ p ∈ m,
        ({ maxIterations := 0 } : MDSOptions).padding ≤ p.2.x ∧
        p.2.x ≤ ({ maxIterations := 0 } : MDSOptions).canvasWidth -
          ({ maxIterations := 0 } : MDSOptions).padding ∧
        ({ maxIterations := 0 } : MDSOptions).padding ≤ p.2.y ∧
        p.2.y ≤ ({ maxIterations := 0 } : MDSOptions).canvasHeight -
          ({ maxIterations := 0 } : MDSOptions).padding :=
  (mds_run_bounds (fun q => q) (fun _ => 1) (fun _ => 1) { maxIterations := 0 }
    [[1], [0]] ["a", "b"] rfl (by norm_num) (by decide) (by decide)
    (by norm_num) (by norm_num) (by norm_num) ⟨100, by norm_num⟩
    ⟨2000, by norm_num⟩ ⟨1500, by norm_num⟩).1

/-- Witness for C10 at the same concrete 2-vector input. -/
theorem mds_run_integer_coords_witness :
    ∃ m, MDSrun (fun q => q) (fun _ => 1) (fun _ => 1) { maxIterations := 0 }
        ⟨[[1], [0]], ["a", "b"]⟩ = .ok m ∧
      ∀ p ∈ m, (∃ kx : ℤ, p.2.x = (kx : ℚ)) ∧ (∃ ky : ℤ, p.2.y = (ky : ℚ)) :=
  mds_run_integer_coords (fun q => q) (fun _ => 1) (fun _ => 1)
    { maxIterations := 0 } [[1], [0]] ["a", "b"] rfl (by norm_num) (by decide)

/-! ### Vector-length mismatch (C6) -/

theorem computeDistanceMatrixE_mismatch (sq : ℚ → ℚ) (a b : List ℚ)
    (rest : List (List ℚ)) (h : a.length ≠ b.length) :
    computeDistanceMatrixE sq (a :: b :: rest) =
      .error "Vectors must have the same length" := by
  have hcos : mdsCosineSimilarity sq ((a :: b :: rest).getD 0 [])
      ((a :: b :: rest).getD 1 []) =
      .error "Vectors must have the same length" := by
    simp only [List.getD_cons_zero, List.getD_cons_succ]
    exact if_pos h
  have hrange : List.range (a :: b :: rest).length =
      0 :: 1 :: ((List.range rest.length).map (fun k => k + 2)) := by
    rw [List.length_cons, List.length_cons, List.range_succ_eq_map,
      List.range_succ_eq_map, List.map_cons, List.map_map]
    rfl
  have e1 : (if (0 : ℕ) = 1 then (pure 0 : Except String ℚ)
      else if 0 < 1 then do
        let s ← mdsCosineSimilarity sq ((a :: b :: rest).getD 0 [])
          ((a :: b :: rest).getD 1 [])
        pure (sq (2 * (1 - s)))
      else do
        let s ← mdsCosineSimilarity sq ((a :: b :: rest).getD 1 [])
          ((a :: b :: rest).getD 0 [])
        pure (sq (2 * (1 - s)))) =
      Except.error "Vectors must have the same length" := by
    rw [if_neg (by omega), if_pos (by omega), hcos]
    rfl
  unfold computeDistanceMatrixE
  dsimp only
  rw [hrange, List.mapM_cons]
  rw [List.mapM_cons, List.mapM_cons]
  rw [show (if (0 : ℕ) = 0 then (pure 0 : Except String ℚ)
      else if 0 < 0 then do
        let s ← mdsCosineSimilarity sq ((a :: b :: rest).getD 0 [])
          ((a :: b :: rest).getD 0 [])
        pure (sq (2 * (1 - s)))
      else do
        let s ← mdsCosineSimilarity sq ((a :: b :: rest).getD 0 [])
          ((a :: b :: rest).getD 0 [])
        pure (sq (2 * (1 - s)))) = (pure 0 : Except String ℚ)
    from if_pos rfl, e1]
  rfl

/-- C6 counterexample: the layout pipeline's similarity (the builder's
`cosineSimilarity`) silently returns the fallback value 0 on a vector
length mismatch and `createEdges` completes normally — no error is
reported and nothing is aborted, contrary to the claim. -/
theorem similarity_mismatch_counterexample :
    builderCosineSimilarity (fun q => q) [1] [1, 1] = 0 ∧
    (createEdges (fun q => q)
      [⟨"m1", "", "", [1]⟩, ⟨"m2", "", "", [1, 1]⟩]
      [("m1", ceNode "X"), ("m2", ceNode "Y")] (7/10) 0).1 = [] := by
  refine ⟨rfl, ?_⟩
  norm_num +decide [createEdges, createEdgesStep, pairIndices,
    builderCosineSimilarity, cosineSimilarityCore, mapGet, pairKey,
    percentLabel, CanvasEdge.createConnection, generateEdgeId, List.getD,
    List.range_succ, ceNode]

/-- C6 (amended): on a vector-length mismatch, the **MDS** similarity
throws (`Vectors must have the same length`) and `run` aborts with that
error; but the **builder** similarity used by the layout pipeline's edge
derivation silently returns 0 instead of reporting an error. -/
theorem similarity_mismatch_amended (sq : ℚ → ℚ) (a b : List ℚ)
    (h : a.length ≠ b.length) :
    mdsCosineSimilarity sq a b = .error "Vectors must have the same length" ∧
    builderCosineSimilarity sq a b = 0 ∧
    (∀ (rand1 rand2 : ℕ → ℚ) (opts : MDSOptions) (rest : List (List ℚ))
      (ids : List String), (a :: b :: rest).length = ids.length →
      MDSrun sq rand1 rand2 opts ⟨a :: b :: rest, ids⟩ =
        .error "Vectors must have the same length") := by
  refine ⟨if_pos h, if_pos h, ?_⟩
  intro rand1 rand2 opts rest ids hlen
  unfold MDSrun
  rw [if_neg (show ¬((a :: b :: rest).length ≠ ids.length) from
      fun hc => hc hlen),
    if_neg (show ¬((a :: b :: rest).length = 0) by simp),
    if_neg (show ¬((a :: b :: rest).length = 1) by simp)]
  rw [show (do
    let D ← computeDistanceMatrixE sq (a :: b :: rest)
    let B := doubleCentering D
    let xy := extractCoordinates sq rand1 rand2 opts.maxIterations
      opts.tolerance B
    let scaledCoords := scaleToCanvas opts xy.1 xy.2
    pure (buildCoordMap ids scaledCoords) :
      Except String (List (String × Coordinate))) =
    (computeDistanceMatrixE sq (a :: b :: rest)).bind (fun D =>
      pure (buildCoordMap ids (scaleToCanvas opts
        (extractCoordinates sq rand1 rand2 opts.maxIterations
          opts.tolerance (doubleCentering D)).1
        (extractCoordinates sq rand1 rand2 opts.maxIterations
          opts.tolerance (doubleCentering D)).2))) from rfl,
    computeDistanceMatrixE_mismatch sq a b rest h]
  rfl

/-- Witness for C6 at concrete mismatched vectors. -/
theorem similarity_mismatch_amended_witness :
    mdsCosineSimilarity (fun q => q) [1] [1, 1] =
      .error "Vectors must have the same length" ∧
    builderCosineSimilarity (fun q => q) [1] [1, 1] = 0 :=
  ⟨(similarity_mismatch_amended (fun q => q) [1] [1, 1] (by decide)).1,
   (similarity_mismatch_amended (fun q => q) [1] [1, 1] (by decide)).2.1⟩

/-! ### Loop-unfolding equations -/

theorem expandLoop_succ_nil (sq : ℚ → ℚ) (eps minPts : ℚ)
    (points : List DBSCANPoint) (clusterId : Int) (fuel : ℕ)
    (st : ExpandState) (h : st.queue = []) :
    expandLoop sq eps minPts points clusterId (fuel + 1) st = st := by
  conv_lhs => unfold expandLoop
  rw [h]

theorem expandLoop_succ_skip (sq : ℚ → ℚ) (eps minPts : ℚ)
    (points : List DBSCANPoint) (clusterId : Int) (fuel : ℕ)
    (st : ExpandState) (current : ℕ) (rest : List ℕ)
    (h : st.queue = current :: rest) (hv : current ∈ st.visited) :
    expandLoop sq eps minPts points clusterId (fuel + 1) st =
      expandLoop sq eps minPts points clusterId fuel
        { st with queue := rest } := by
  conv_lhs => unfold expandLoop
  rw [h]
  dsimp only
  rw [if_pos hv]

theorem expandLoop_succ_noise (sq : ℚ → ℚ) (eps minPts : ℚ)
    (points : List DBSCANPoint) (clusterId : Int) (fuel : ℕ)
    (st : ExpandState) (current : ℕ) (rest : List ℕ)
    (h : st.queue = current :: rest) (hv : current ∉ st.visited)
    (hl : st.labels.getD current none = some (-1)) :
    expandLoop sq eps minPts points clusterId (fuel + 1) st =
      expandLoop sq eps minPts points clusterId fuel
        ⟨st.labels.set current (some clusterId), rest,
          insert current st.visited⟩ := by
  conv_lhs => unfold expandLoop
  rw [h]
  dsimp only
  rw [if_neg hv, hl]
  dsimp only
  rw [if_pos rfl]

theorem expandLoop_succ_other (sq : ℚ → ℚ) (eps minPts : ℚ)
    (points : List DBSCANPoint) (clusterId : Int) (fuel : ℕ)
    (st : ExpandState) (current : ℕ) (rest : List ℕ) (c : Int)
    (h : st.queue = current :: rest) (hv : current ∉ st.visited)
    (hl : st.labels.getD current none = some c) (hc : c ≠ -1) :
    expandLoop sq eps minPts points clusterId (fuel + 1) st =
      expandLoop sq eps minPts points clusterId fuel
        ⟨st.labels, rest, insert current st.visited⟩ := by
  conv_lhs => unfold expandLoop
  rw [h]
  dsimp only
  rw [if_neg hv, hl]
  dsimp only
  rw [if_neg hc]

theorem expandLoop_succ_core (sq : ℚ → ℚ) (eps minPts : ℚ)
    (points : List DBSCANPoint) (clusterId : Int) (fuel : ℕ)
    (st : ExpandState) (current : ℕ) (rest : List ℕ)
    (h : st.queue = current :: rest) (hv : current ∉ st.visited)
    (hl : st.labels.getD current none = none)
    (hcore : minPts ≤ ((regionQuery sq eps points current).length : ℚ)) :
    expandLoop sq eps minPts points clusterId (fuel + 1) st =
      expandLoop sq eps minPts points clusterId fuel
        ⟨st.labels.set current (some clusterId),
          rest ++ (regionQuery sq eps points current).filter
            (fun nb => nb ∉ insert current st.visited),
          insert current st.visited⟩ := by
  conv_lhs => unfold expandLoop
  rw [h]
  dsimp only
  rw [if_neg hv, hl]
  dsimp only
  rw [if_pos hcore]

theorem expandLoop_succ_border (sq : ℚ → ℚ) (eps minPts : ℚ)
    (points : List DBSCANPoint) (clusterId : Int) (fuel : ℕ)
    (st : ExpandState) (current : ℕ) (rest : List ℕ)
    (h : st.queue = current :: rest) (hv : current ∉ st.visited)
    (hl : st.labels.getD current none = none)
    (hcore : ¬ minPts ≤ ((regionQuery sq eps points current).length : ℚ)) :
    expandLoop sq eps minPts points clusterId (fuel + 1) st =
      expandLoop sq eps minPts points clusterId fuel
        ⟨st.labels.set current (some clusterId), rest,
          insert current st.visited⟩ := by
  conv_lhs => unfold expandLoop
  rw [h]
  dsimp only
  rw [if_neg hv, hl]
  dsimp only
  rw [if_neg hcore]

/-! ### Invariants of the expansion loop -/

theorem labels_getD_set_self (l : List (Option Int)) (i : ℕ) (v : Option Int)
    (h : i < l.length) : (l.set i v).getD i none = v := by
  rw [List.getD_eq_getElem?_getD, List.getElem?_set_self']
  simp [List.getElem?_eq_getElem h]

theorem labels_getD_set_ne (l : List (Option Int)) (i j : ℕ) (v : Option Int)
    (h : j ≠ i) : (l.set i v).getD j none = l.getD j none := by
  rw [List.getD_eq_getElem?_getD, List.getD_eq_getElem?_getD,
    List.getElem?_set_ne (Ne.symm h)]

theorem regionQuery_lt (sq : ℚ → ℚ) (eps : ℚ) (points : List DBSCANPoint)
    (pointIndex : ℕ) : ∀ j ∈ regionQuery sq eps points pointIndex,
      j < points.length := by
  intro j hj
  unfold regionQuery at hj
  simp only [List.mem_filter, List.mem_range] at hj
  exact hj.1

theorem regionQuery_length_le (sq : ℚ → ℚ) (eps : ℚ)
    (points : List DBSCANPoint) (pointIndex : ℕ) :
    (regionQuery sq eps points pointIndex).length ≤ points.length := by
  unfold regionQuery
  exact le_trans (List.length_filter_le _ _) (le_of_eq (List.length_range _))

theorem expandInv_skip (sq : ℚ → ℚ) (eps minPts : ℚ)
    (points : List DBSCANPoint) (clusterId : Int) (L0 : List (Option Int))
    (neighbors0 : List ℕ) (pointIndex : ℕ) (st : ExpandState) (current : ℕ)
    (rest : List ℕ)
    (hInv : ExpandInv sq eps minPts points clusterId L0 neighbors0 pointIndex st)
    (hq : st.queue = current :: rest) (hv : current ∈ st.visited) :
    ExpandInv sq eps minPts points clusterId L0 neighbors0 pointIndex
      { st with queue := rest } := by
  obtain ⟨len, vsub, qlt, mono, core_rec, qprov, lprov, vlab⟩ := hInv
  refine ⟨len, vsub, ?_, mono, ?_, ?_, lprov, vlab⟩
  · intro q hqq
    exact qlt q (by rw [hq]; exact List.mem_cons_of_mem _ hqq)
  · intro k hk hlk hL0k hck j hj
    rcases core_rec k hk hlk hL0k hck j hj with h | h
    · exact Or.inl h
    · rw [hq] at h
      rcases List.mem_cons.mp h with rfl | h'
      · exact Or.inl hv
      · exact Or.inr h'
  · intro j hj
    exact qprov j (by rw [hq]; exact List.mem_cons_of_mem _ hj)

theorem expandInv_noise (sq : ℚ → ℚ) (eps minPts : ℚ)
    (points : List DBSCANPoint) (clusterId : Int) (L0 : List (Option Int))
    (neighbors0 : List ℕ) (pointIndex : ℕ) (st : ExpandState) (current : ℕ)
    (rest : List ℕ)
    (hInv : ExpandInv sq eps minPts points clusterId L0 neighbors0 pointIndex st)
    (hq : st.queue = current :: rest) (hv : current ∉ st.visited)
    (hl : st.labels.getD current none = some (-1)) (hcid : clusterId ≠ -1) :
    ExpandInv sq eps minPts points clusterId L0 neighbors0 pointIndex
      ⟨st.labels.set current (some clusterId), rest,
        insert current st.visited⟩ := by
  obtain ⟨len, vsub, qlt, mono, core_rec, qprov, lprov, vlab⟩ := hInv
  have hcn : current < points.length :=
    qlt current (by rw [hq]; exact List.mem_cons_self _ _)
  have hcl : current < st.labels.length := by rw [len]; exact hcn
  have hset_self :
      (st.labels.set current (some clusterId)).getD current none =
        some clusterId := labels_getD_set_self _ _ _ hcl
  have hset_ne : ∀ j, j ≠ current →
      (st.labels.set current (some clusterId)).getD j none =
        st.labels.getD j none := fun j hj => labels_getD_set_ne _ _ _ _ hj
  have hL0c : L0.getD current none = some (-1) := by
    rcases mono current with h | h
    · rw [← h]; exact hl
    · rw [hl] at h
      exact absurd (Option.some.inj h).symm hcid
  refine ⟨?_, ?_, ?_, ?_, ?_, ?_, ?_, ?_⟩
  · show (st.labels.set current (some clusterId)).length = points.length
    rw [List.length_set]; exact len
  · exact Finset.insert_subset (Finset.mem_range.mpr hcn) vsub
  · intro q hqq
    exact qlt q (by rw [hq]; exact List.mem_cons_of_mem _ hqq)
  · intro j
    by_cases hj : j = current
    · subst hj; exact Or.inr hset_self
    · rw [hset_ne j hj]; exact mono j
  · intro k hk hlk hL0k hck j hj
    by_cases hkc : k = current
    · subst hkc
      rw [hL0c] at hL0k
      exact Option.noConfusion hL0k
    · rw [hset_ne k hkc] at hlk
      rcases core_rec k hk hlk hL0k hck j hj with h | h
      · exact Or.inl (Finset.mem_insert_of_mem h)
      · rw [hq] at h
        rcases List.mem_cons.mp h with rfl | h'
        · exact Or.inl (Finset.mem_insert_self _ _)
        · exact Or.inr h'
  · intro j hj
    rcases qprov j (by rw [hq]; exact List.mem_cons_of_mem _ hj) with
      h | ⟨k, hk1, hk2, hk3, hk4, hk5⟩
    · exact Or.inl h
    · refine Or.inr ⟨k, hk1, hk2, ?_, hk4, hk5⟩
      by_cases hkc : k = current
      · subst hkc; exact hset_self
      · rw [hset_ne k hkc]; exact hk3
  · intro j hjn hlj
    by_cases hjc : j = current
    · subst hjc
      rcases qprov j (by rw [hq]; exact List.mem_cons_self _ _) with
        h | ⟨k, hk1, hk2, hk3, hk4, hk5⟩
      · exact Or.inr (Or.inr (Or.inl h))
      · refine Or.inr (Or.inr (Or.inr ⟨k, hk1, hk2, ?_, hk4, hk5⟩))
        by_cases hkc : k = j
        · subst hkc; exact hset_self
        · rw [hset_ne k hkc]; exact hk3
    · rw [hset_ne j hjc] at hlj
      rcases lprov j hjn hlj with h | h | h | ⟨k, hk1, hk2, hk3, hk4, hk5⟩
      · exact Or.inl h
      · exact Or.inr (Or.inl h)
      · exact Or.inr (Or.inr (Or.inl h))
      · refine Or.inr (Or.inr (Or.inr ⟨k, hk1, hk2, ?_, hk4, hk5⟩))
        by_cases hkc : k = current
        · subst hkc; exact hset_self
        · rw [hset_ne k hkc]; exact hk3
  · intro j hjv
    rcases Finset.mem_insert.mp hjv with rfl | hjv'
    · refine ⟨fun _ => hset_self, fun h0 => ?_⟩
      rw [hL0c] at h0
      exact Option.noConfusion h0
    · have hne : j ≠ current := fun h => hv (h ▸ hjv')
      refine ⟨fun h0 => ?_, fun h0 => ?_⟩
      · rw [hset_ne j hne]
        exact (vlab j hjv').1 h0
      · rw [hset_ne j hne]
        exact (vlab j hjv').2 h0

theorem expandInv_other (sq : ℚ → ℚ) (eps minPts : ℚ)
    (points : List DBSCANPoint) (clusterId : Int) (L0 : List (Option Int))
    (neighbors0 : List ℕ) (pointIndex : ℕ) (st : ExpandState) (current : ℕ)
    (rest : List ℕ) (c : Int)
    (hInv : ExpandInv sq eps minPts points clusterId L0 neighbors0 pointIndex st)
    (hq : st.queue = current :: rest) (hv : current ∉ st.visited)
    (hl : st.labels.getD current none = some c) (hc : c ≠ -1) :
    ExpandInv sq eps minPts points clusterId L0 neighbors0 pointIndex
      ⟨st.labels, rest, insert current st.visited⟩ := by
  obtain ⟨len, vsub, qlt, mono, core_rec, qprov, lprov, vlab⟩ := hInv
  have hcn : current < points.length :=
    qlt current (by rw [hq]; exact List.mem_cons_self _ _)
  refine ⟨len, ?_, ?_, mono, ?_, ?_, lprov, ?_⟩
  · exact Finset.insert_subset (Finset.mem_range.mpr hcn) vsub
  · intro q hqq
    exact qlt q (by rw [hq]; exact List.mem_cons_of_mem _ hqq)
  · intro k hk hlk hL0k hck j hj
    rcases core_rec k hk hlk hL0k hck j hj with h | h
    · exact Or.inl (Finset.mem_insert_of_mem h)
    · rw [hq] at h
      rcases List.mem_cons.mp h with rfl | h'
      · exact Or.inl (Finset.mem_insert_self _ _)
      · exact Or.inr h'
  · intro j hj
    exact qprov j (by rw [hq]; exact List.mem_cons_of_mem _ hj)
  · intro j hjv
    rcases Finset.mem_insert.mp hjv with rfl | hjv'
    · refine ⟨fun h0 => ?_, fun h0 => ?_⟩
      · rcases mono j with h | h
        · rw [h, h0] at hl
          exact absurd (Option.some.inj hl).symm hc
        · exact h
      · rcases mono j with h | h
        · rw [h, h0] at hl
          exact Option.noConfusion hl
        · exact h
    · exact vlab j hjv'

theorem expandInv_core (sq : ℚ → ℚ) (eps minPts : ℚ)
    (points : List DBSCANPoint) (clusterId : Int) (L0 : List (Option Int))
    (neighbors0 : List ℕ) (pointIndex : ℕ) (st : ExpandState) (current : ℕ)
    (rest : List ℕ)
    (hInv : ExpandInv sq eps minPts points clusterId L0 neighbors0 pointIndex st)
    (hq : st.queue = current :: rest) (hv : current ∉ st.visited)
    (hl : st.labels.getD current none = none)
    (hcore : minPts ≤ ((regionQuery sq eps points current).length : ℚ)) :
    ExpandInv sq eps minPts points clusterId L0 neighbors0 pointIndex
      ⟨st.labels.set current (some clusterId),
        rest ++ (regionQuery sq eps points current).filter
          (fun nb => nb ∉ insert current st.visited),
        insert current st.visited⟩ := by
  obtain ⟨len, vsub, qlt, mono, core_rec, qprov, lprov, vlab⟩ := hInv
  have hcn : current < points.length :=
    qlt current (by rw [hq]; exact List.mem_cons_self _ _)
  have hcl : current < st.labels.length := by rw [len]; exact hcn
  have hset_self :
      (st.labels.set current (some clusterId)).getD current none =
        some clusterId := labels_getD_set_self _ _ _ hcl
  have hset_ne : ∀ j, j ≠ current →
      (st.labels.set current (some clusterId)).getD j none =
        st.labels.getD j none := fun j hj => labels_getD_set_ne _ _ _ _ hj
  have hL0c : L0.getD current none = none := by
    rcases mono current with h | h
    · rw [← h]; exact hl
    · rw [hl] at h
      exact Option.noConfusion h
  have hupg : ∀ k, st.labels.getD k none = some clusterId →
      (st.labels.set current (some clusterId)).getD k none = some clusterId := by
    intro k hk
    by_cases hkc : k = current
    · subst hkc; exact hset_self
    · rw [hset_ne k hkc]; exact hk
  refine ⟨?_, ?_, ?_, ?_, ?_, ?_, ?_, ?_⟩
  · show (st.labels.set current (some clusterId)).length = points.length
    rw [List.length_set]; exact len
  · exact Finset.insert_subset (Finset.mem_range.mpr hcn) vsub
  · intro q hqq
    rcases List.mem_append.mp hqq with h | h
    · exact qlt q (by rw [hq]; exact List.mem_cons_of_mem _ h)
    · exact regionQuery_lt sq eps points current q (List.mem_of_mem_filter h)
  · intro j
    by_cases hj : j = current
    · subst hj; exact Or.inr hset_self
    · rw [hset_ne j hj]; exact mono j
  · intro k hk hlk hL0k hck j hj
    by_cases hkc : k = current
    · subst hkc
      by_cases hjv : j ∈ insert k st.visited
      · exact Or.inl hjv
      · refine Or.inr (List.mem_append.mpr (Or.inr ?_))
        rw [List.mem_filter]
        exact ⟨hj, by simpa using hjv⟩
    · rw [hset_ne k hkc] at hlk
      rcases core_rec k hk hlk hL0k hck j hj with h | h
      · exact Or.inl (Finset.mem_insert_of_mem h)
      · rw [hq] at h
        rcases List.mem_cons.mp h with rfl | h'
        · exact Or.inl (Finset.mem_insert_self _ _)
        · exact Or.inr (List.mem_append_left _ h')
  · intro j hj
    rcases List.mem_append.mp hj with h | h
    · rcases qprov j (by rw [hq]; exact List.mem_cons_of_mem _ h) with
        h' | ⟨k, hk1, hk2, hk3, hk4, hk5⟩
      · exact Or.inl h'
      · exact Or.inr ⟨k, hk1, hk2, hupg k hk3, hk4, hk5⟩
    · exact Or.inr ⟨current, hcn, hL0c, hset_self, hcore,
        List.mem_of_mem_filter h⟩
  · intro j hjn hlj
    by_cases hjc : j = current
    · subst hjc
      rcases qprov j (by rw [hq]; exact List.mem_cons_self _ _) with
        h | ⟨k, hk1, hk2, hk3, hk4, hk5⟩
      · exact Or.inr (Or.inr (Or.inl h))
      · exact Or.inr (Or.inr (Or.inr ⟨k, hk1, hk2, hupg k hk3, hk4, hk5⟩))
    · rw [hset_ne j hjc] at hlj
      rcases lprov j hjn hlj with h | h | h | ⟨k, hk1, hk2, hk3, hk4, hk5⟩
      · exact Or.inl h
      · exact Or.inr (Or.inl h)
      · exact Or.inr (Or.inr (Or.inl h))
      · exact Or.inr (Or.inr (Or.inr ⟨k, hk1, hk2, hupg k hk3, hk4, hk5⟩))
  · intro j hjv
    rcases Finset.mem_insert.mp hjv with rfl | hjv'
    · refine ⟨fun h0 => ?_, fun _ => hset_self⟩
      rw [hL0c] at h0
      exact Option.noConfusion h0
    · have hne : j ≠ current := fun h => hv (h ▸ hjv')
      refine ⟨fun h0 => ?_, fun h0 => ?_⟩
      · rw [hset_ne j hne]
        exact (vlab j hjv').1 h0
      · rw [hset_ne j hne]
        exact (vlab j hjv').2 h0

theorem expandInv_border (sq : ℚ → ℚ) (eps minPts : ℚ)
    (points : List DBSCANPoint) (clusterId : Int) (L0 : List (Option Int))
    (neighbors0 : List ℕ) (pointIndex : ℕ) (st : ExpandState) (current : ℕ)
    (rest : List ℕ)
    (hInv : ExpandInv sq eps minPts points clusterId L0 neighbors0 pointIndex st)
    (hq : st.queue = current :: rest) (hv : current ∉ st.visited)
    (hl : st.labels.getD current none = none)
    (hcore : ¬ minPts ≤ ((regionQuery sq eps points current).length : ℚ)) :
    ExpandInv sq eps minPts points clusterId L0 neighbors0 pointIndex
      ⟨st.labels.set current (some clusterId), rest,
        insert current st.visited⟩ := by
  obtain ⟨len, vsub, qlt, mono, core_rec, qprov, lprov, vlab⟩ := hInv
  have hcn : current < points.length :=
    qlt current (by rw [hq]; exact List.mem_cons_self _ _)
  have hcl : current < st.labels.length := by rw [len]; exact hcn
  have hset_self :
      (st.labels.set current (some clusterId)).getD current none =
        some clusterId := labels_getD_set_self _ _ _ hcl
  have hset_ne : ∀ j, j ≠ current →
      (st.labels.set current (some clusterId)).getD j none =
        st.labels.getD j none := fun j hj => labels_getD_set_ne _ _ _ _ hj
  have hL0c : L0.getD current none = none := by
    rcases mono current with h | h
    · rw [← h]; exact hl
    · rw [hl] at h
      exact Option.noConfusion h
  have hupg : ∀ k, st.labels.getD k none = some clusterId →
      (st.labels.set current (some clusterId)).getD k none = some clusterId := by
    intro k hk
    by_cases hkc : k = current
    · subst hkc; exact hset_self
    · rw [hset_ne k hkc]; exact hk
  refine ⟨?_, ?_, ?_, ?_, ?_, ?_, ?_, ?_⟩
  · show (st.labels.set current (some clusterId)).length = points.length
    rw [List.length_set]; exact len
  · exact Finset.insert_subset (Finset.mem_range.mpr hcn) vsub
  · intro q hqq
    exact qlt q (by rw [hq]; exact List.mem_cons_of_mem _ hqq)
  · intro j
    by_cases hj : j = current
    · subst hj; exact Or.inr hset_self
    · rw [hset_ne j hj]; exact mono j
  · intro k hk hlk hL0k hck j hj
    by_cases hkc : k = current
    · subst hkc
      exact absurd hck hcore
    · rw [hset_ne k hkc] at hlk
      rcases core_rec k hk hlk hL0k hck j hj with h | h
      · exact Or.inl (Finset.mem_insert_of_mem h)
      · rw [hq] at h
        rcases List.mem_cons.mp h with rfl | h'
        · exact Or.inl (Finset.mem_insert_self _ _)
        · exact Or.inr h'
  · intro j hj
    rcases qprov j (by rw [hq]; exact List.mem_cons_of_mem _ hj) with
      h | ⟨k, hk1, hk2, hk3, hk4, hk5⟩
    · exact Or.inl h
    · exact Or.inr ⟨k, hk1, hk2, hupg k hk3, hk4, hk5⟩
  · intro j hjn hlj
    by_cases hjc : j = current
    · subst hjc
      rcases qprov j (by rw [hq]; exact List.mem_cons_self _ _) with
        h | ⟨k, hk1, hk2, hk3, hk4, hk5⟩
      · exact Or.inr (Or.inr (Or.inl h))
      · exact Or.inr (Or.inr (Or.inr ⟨k, hk1, hk2, hupg k hk3, hk4, hk5⟩))
    · rw [hset_ne j hjc] at hlj
      rcases lprov j hjn hlj with h | h | h | ⟨k, hk1, hk2, hk3, hk4, hk5⟩
      · exact Or.inl h
      · exact Or.inr (Or.inl h)
      · exact Or.inr (Or.inr (Or.inl h))
      · exact Or.inr (Or.inr (Or.inr ⟨k, hk1, hk2, hupg k hk3, hk4, hk5⟩))
  · intro j hjv
    rcases Finset.mem_insert.mp hjv with rfl | hjv'
    · refine ⟨fun h0 => ?_, fun _ => hset_self⟩
      rw [hL0c] at h0
      exact Option.noConfusion h0
    · have hne : j ≠ current := fun h => hv (h ▸ hjv')
      refine ⟨fun h0 => ?_, fun h0 => ?_⟩
      · rw [hset_ne j hne]
        exact (vlab j hjv').1 h0
      · rw [hset_ne j hne]
        exact (vlab j hjv').2 h0

theorem measure_drop (n qlen card extra : ℕ) (hcard : card < n)
    (hextra : extra ≤ n) :
    (qlen + extra) + (n + 1) * (n - (card + 1)) <
      (qlen + 1) + (n + 1) * (n - card) := by
  have h1 : n - (card + 1) + 1 = n - card := by omega
  have h2 : (n + 1) * (n - card) = (n + 1) * (n - (card + 1)) + (n + 1) := by
    calc (n + 1) * (n - card) = (n + 1) * ((n - (card + 1)) + 1) := by rw [h1]
      _ = (n + 1) * (n - (card + 1)) + (n + 1) := by ring
  rw [h2]
  generalize (n + 1) * (n - (card + 1)) = A
  omega

theorem expandMeasure_step_lt (points : List DBSCANPoint) (st : ExpandState)
    (lab : List (Option Int)) (current : ℕ) (rest more : List ℕ)
    (hq : st.queue = current :: rest) (hv : current ∉ st.visited)
    (hcard : st.visited.card < points.length)
    (hmore : more.length ≤ points.length) :
    expandMeasure points ⟨lab, rest ++ more, insert current st.visited⟩ <
      expandMeasure points st := by
  unfold expandMeasure
  rw [hq]
  simp only [List.length_cons, List.length_append]
  rw [Finset.card_insert_of_not_mem hv]
  exact measure_drop points.length rest.length st.visited.card more.length
    hcard hmore

theorem expandMeasure_step_lt_nil (points : List DBSCANPoint)
    (st : ExpandState) (lab : List (Option Int)) (current : ℕ)
    (rest : List ℕ) (hq : st.queue = current :: rest)
    (hv : current ∉ st.visited)
    (hcard : st.visited.card < points.length) :
    expandMeasure points ⟨lab, rest, insert current st.visited⟩ <
      expandMeasure points st := by
  have h := expandMeasure_step_lt points st lab current rest [] hq hv hcard
    (Nat.zero_le _)
  simpa using h

/-- Drain lemma: with enough fuel and the invariant holding, the loop
empties its queue, preserves the invariant, and visits every queued
index. -/
theorem expandLoop_spec (sq : ℚ → ℚ) (eps minPts : ℚ)
    (points : List DBSCANPoint) (clusterId : Int) (L0 : List (Option Int))
    (neighbors0 : List ℕ) (pointIndex : ℕ) (hcid : clusterId ≠ -1) :
    ∀ (fuel : ℕ) (st : ExpandState),
      ExpandInv sq eps minPts points clusterId L0 neighbors0 pointIndex st →
      expandMeasure points st < fuel →
      ExpandInv sq eps minPts points clusterId L0 neighbors0 pointIndex
          (expandLoop sq eps minPts points clusterId fuel st) ∧
        (expandLoop sq eps minPts points clusterId fuel st).queue = [] ∧
        st.visited ⊆ (expandLoop sq eps minPts points clusterId fuel st).visited ∧
        ∀ j ∈ st.queue,
          j ∈ (expandLoop sq eps minPts points clusterId fuel st).visited := by
  intro fuel
  induction fuel with
  | zero =>
    intro st _ hm
    exact absurd hm (Nat.not_lt_zero _)
  | succ fuel ih =>
    intro st hInv hm
    cases hq : st.queue with
    | nil =>
      rw [expandLoop_succ_nil sq eps minPts points clusterId fuel st hq]
      refine ⟨hInv, hq, Finset.Subset.refl _, ?_⟩
      intro j hj
      exact absurd hj (List.not_mem_nil j)
    | cons current rest =>
      have hcn : current < points.length :=
        hInv.qlt current (by rw [hq]; exact List.mem_cons_self _ _)
      by_cases hv : current ∈ st.visited
      · rw [expandLoop_succ_skip sq eps minPts points clusterId fuel st
          current rest hq hv]
        have hInv' := expandInv_skip sq eps minPts points clusterId L0
          neighbors0 pointIndex st current rest hInv hq hv
        have hm' : expandMeasure points { st with queue := rest } < fuel := by
          unfold expandMeasure at hm ⊢
          rw [hq] at hm
          simp only [List.length_cons] at hm
          dsimp only
          generalize (points.length + 1) *
            (points.length - st.visited.card) = A at hm ⊢
          omega
        obtain ⟨ha, hb, hvm, hqv⟩ := ih _ hInv' hm'
        refine ⟨ha, hb, hvm, ?_⟩
        intro j hj
        rcases List.mem_cons.mp hj with rfl | hj'
        · exact hvm hv
        · exact hqv j hj'
      · have hcard : st.visited.card < points.length := by
          rcases Nat.lt_or_ge st.visited.card points.length with h | h
          · exact h
          · exfalso
            have hcards : (Finset.range points.length).card ≤
                st.visited.card := by
              rw [Finset.card_range]; exact h
            have heq : st.visited = Finset.range points.length :=
              Finset.eq_of_subset_of_card_le hInv.vsub hcards
            exact hv (by rw [heq]; exact Finset.mem_range.mpr hcn)
        have hmle : expandMeasure points st ≤ fuel := Nat.lt_succ_iff.mp hm
        cases hlab : st.labels.getD current none with
        | some c =>
          by_cases hc1 : c = -1
          · subst hc1
            rw [expandLoop_succ_noise sq eps minPts points clusterId fuel st
              current rest hq hv hlab]
            have hInv' := expandInv_noise sq eps minPts points clusterId L0
              neighbors0 pointIndex st current rest hInv hq hv hlab hcid
            have hm' := lt_of_lt_of_le (expandMeasure_step_lt_nil points st
              (st.labels.set current (some clusterId)) current rest hq hv
              hcard) hmle
            obtain ⟨ha, hb, hvm, hqv⟩ := ih _ hInv' hm'
            refine ⟨ha, hb,
              subset_trans (Finset.subset_insert _ _) hvm, ?_⟩
            intro j hj
            rcases List.mem_cons.mp hj with rfl | hj'
            · exact hvm (Finset.mem_insert_self _ _)
            · exact hqv j hj'
          · rw [expandLoop_succ_other sq eps minPts points clusterId fuel st
              current rest c hq hv hlab hc1]
            have hInv' := expandInv_other sq eps minPts points clusterId L0
              neighbors0 pointIndex st current rest c hInv hq hv hlab hc1
            have hm' := lt_of_lt_of_le (expandMeasure_step_lt_nil points st
              st.labels current rest hq hv hcard) hmle
            obtain ⟨ha, hb, hvm, hqv⟩ := ih _ hInv' hm'
            refine ⟨ha, hb,
              subset_trans (Finset.subset_insert _ _) hvm, ?_⟩
            intro j hj
            rcases List.mem_cons.mp hj with rfl | hj'
            · exact hvm (Finset.mem_insert_self _ _)
            · exact hqv j hj'
        | none =>
          by_cases hcore :
              minPts ≤ ((regionQuery sq eps points current).length : ℚ)
          · rw [expandLoop_succ_core sq eps minPts points clusterId fuel st
              current rest hq hv hlab hcore]
            have hInv' := expandInv_core sq eps minPts points clusterId L0
              neighbors0 pointIndex st current rest hInv hq hv hlab hcore
            have hmore : ((regionQuery sq eps points current).filter
                (fun nb => nb ∉ insert current st.visited)).length ≤
                points.length :=
              le_trans (List.length_filter_le _ _)
                (regionQuery_length_le sq eps points current)
            have hm' := lt_of_lt_of_le (expandMeasure_step_lt points st
              (st.labels.set current (some clusterId)) current rest _ hq hv
              hcard hmore) hmle
            obtain ⟨ha, hb, hvm, hqv⟩ := ih _ hInv' hm'
            refine ⟨ha, hb,
              subset_trans (Finset.subset_insert _ _) hvm, ?_⟩
            intro j hj
            rcases List.mem_cons.mp hj with rfl | hj'
            · exact hvm (Finset.mem_insert_self _ _)
            · exact hqv j (List.mem_append_left _ hj')
          · rw [expandLoop_succ_border sq eps minPts points clusterId fuel st
              current rest hq hv hlab hcore]
            have hInv' := expandInv_border sq eps minPts points clusterId L0
              neighbors0 pointIndex st current rest hInv hq hv hlab hcore
            have hm' := lt_of_lt_of_le (expandMeasure_step_lt_nil points st
              (st.labels.set current (some clusterId)) current rest hq hv
              hcard) hmle
            obtain ⟨ha, hb, hvm, hqv⟩ := ih _ hInv' hm'
            refine ⟨ha, hb,
              subset_trans (Finset.subset_insert _ _) hvm, ?_⟩
            intro j hj
            rcases List.mem_cons.mp hj with rfl | hj'
            · exact hvm (Finset.mem_insert_self _ _)
            · exact hqv j hj'

/-- **C5**: In `DBSCANAlgorithm.expandCluster` (as invoked by `run` with
`neighbors = regionQuery(points, pointIndex)`), writing `final` for the
resulting label array: (1) labels only ever change to the expanding
cluster's id; (2) every seed neighbor that was provisionally noise (or
unlabeled) is reassigned to the cluster id — noise reached by the
expansion becomes a border member; (3) the same holds for every neighbor
of any previously-unlabeled **core** point absorbed by the expansion —
core points contribute their whole neighborhood; (4) conversely, an
index acquires the cluster id only if it is the seed, a seed neighbor,
or the neighbor of a previously-unlabeled core point absorbed by the
expansion — non-core (border) points never propagate the cluster to
their own neighbors. -/
theorem dbscan_border_absorption (sq : ℚ → ℚ) (eps minPts : ℚ)
    (points : List DBSCANPoint) (labels : List (Option Int))
    (pointIndex : ℕ) (clusterId : Int)
    (hlen : labels.length = points.length)
    (hp : pointIndex < points.length)
    (hcid : clusterId ≠ -1) :
    (∀ j,
      (expandCluster sq eps minPts points labels pointIndex
          (regionQuery sq eps points pointIndex) clusterId).getD j none =
        labels.getD j none ∨
      (expandCluster sq eps minPts points labels pointIndex
          (regionQuery sq eps points pointIndex) clusterId).getD j none =
        some clusterId) ∧
    (∀ j ∈ regionQuery sq eps points pointIndex,
      labels.getD j none = some (-1) ∨ labels.getD j none = none →
      (expandCluster sq eps minPts points labels pointIndex
          (regionQuery sq eps points pointIndex) clusterId).getD j none =
        some clusterId) ∧
    (∀ k, k < points.length → labels.getD k none = none →
      (expandCluster sq eps minPts points labels pointIndex
          (regionQuery sq eps points pointIndex) clusterId).getD k none =
        some clusterId →
      isCore sq eps minPts points k →
      ∀ j ∈ regionQuery sq eps points k,
        labels.getD j none = some (-1) ∨ labels.getD j none = none →
        (expandCluster sq eps minPts points labels pointIndex
            (regionQuery sq eps points pointIndex) clusterId).getD j none =
          some clusterId) ∧
    (∀ j, j < points.length →
      (expandCluster sq eps minPts points labels pointIndex
          (regionQuery sq eps points pointIndex) clusterId).getD j none =
        some clusterId →
      labels.getD j none = some clusterId ∨ j = pointIndex ∨
      j ∈ regionQuery sq eps points pointIndex ∨
      ∃ k, k < points.length ∧ labels.getD k none = none ∧
        (expandCluster sq eps minPts points labels pointIndex
            (regionQuery sq eps points pointIndex) clusterId).getD k none =
          some clusterId ∧
        isCore sq eps minPts points k ∧ j ∈ regionQuery sq eps points k) := by
  have hpl : pointIndex < labels.length := by rw [hlen]; exact hp
  have hInv0 : ExpandInv sq eps minPts points clusterId labels
      (regionQuery sq eps points pointIndex) pointIndex
      ⟨labels.set pointIndex (some clusterId),
        regionQuery sq eps points pointIndex, {pointIndex}⟩ := by
    refine ⟨?_, ?_, ?_, ?_, ?_, ?_, ?_, ?_⟩
    · show (labels.set pointIndex (some clusterId)).length = points.length
      rw [List.length_set]; exact hlen
    · exact Finset.singleton_subset_iff.mpr (Finset.mem_range.mpr hp)
    · exact regionQuery_lt sq eps points pointIndex
    · intro j
      by_cases hj : j = pointIndex
      · subst hj
        exact Or.inr (labels_getD_set_self _ _ _ hpl)
      · rw [labels_getD_set_ne _ _ _ _ hj]
        exact Or.inl rfl
    · intro k hk hlk hL0k hck j hj
      by_cases hkc : k = pointIndex
      · subst hkc
        exact Or.inr hj
      · rw [labels_getD_set_ne _ _ _ _ hkc, hL0k] at hlk
        exact Option.noConfusion hlk
    · intro j hj
      exact Or.inl hj
    · intro j hjn hlj
      by_cases hj : j = pointIndex
      · exact Or.inr (Or.inl hj)
      · rw [labels_getD_set_ne _ _ _ _ hj] at hlj
        exact Or.inl hlj
    · intro j hjv
      have hj : j = pointIndex := Finset.mem_singleton.mp hjv
      subst hj
      exact ⟨fun _ => labels_getD_set_self _ _ _ hpl,
        fun _ => labels_getD_set_self _ _ _ hpl⟩
  have hm0 : expandMeasure points
      ⟨labels.set pointIndex (some clusterId),
        regionQuery sq eps points pointIndex, {pointIndex}⟩ <
      expandFuel points (regionQuery sq eps points pointIndex) := by
    unfold expandMeasure expandFuel
    dsimp only
    rw [Finset.card_singleton]
    have h1 : (points.length + 1) * (points.length - 1) <
        (points.length + 1) * (points.length + 1) :=
      mul_lt_mul_of_pos_left (by omega) (by omega)
    exact Nat.add_lt_add_left h1 _
  obtain ⟨hI, hqnil, hvmono, hqvis⟩ := expandLoop_spec sq eps minPts points
    clusterId labels (regionQuery sq eps points pointIndex) pointIndex hcid
    (expandFuel points (regionQuery sq eps points pointIndex)) _ hInv0 hm0
  refine ⟨?_, ?_, ?_, ?_⟩
  · exact hI.mono
  · intro j hj hcase
    have hjv := hqvis j hj
    rcases hcase with h | h
    · exact (hI.vlab j hjv).1 h
    · exact (hI.vlab j hjv).2 h
  · intro k hk hkn hkc hkcore j hj hcase
    have hmem := hI.core_rec k hk hkc hkn hkcore j hj
    rw [hqnil] at hmem
    rcases hmem with hjv | hjv
    · rcases hcase with h | h
      · exact (hI.vlab j hjv).1 h
      · exact (hI.vlab j hjv).2 h
    · exact absurd hjv (List.not_mem_nil _)
  · exact hI.lprov

/-- Witness for C5: the theorem instantiated on four concrete points
(the identity as square-root oracle, eps 1, minPts 2, seed index 0,
cluster id 0), with all hypotheses discharged by computation. -/
theorem dbscan_border_absorption_witness :
    wLabelsD.length = wPointsD.length ∧ 0 < wPointsD.length ∧
    ((0 : Int) ≠ -1) ∧
    ((∀ j,
      (expandCluster (fun q => q) 1 2 wPointsD wLabelsD 0
          (regionQuery (fun q => q) 1 wPointsD 0) 0).getD j none =
        wLabelsD.getD j none ∨
      (expandCluster (fun q => q) 1 2 wPointsD wLabelsD 0
          (regionQuery (fun q => q) 1 wPointsD 0) 0).getD j none =
        some 0) ∧
    (∀ j ∈ regionQuery (fun q => q) 1 wPointsD 0,
      wLabelsD.getD j none = some (-1) ∨ wLabelsD.getD j none = none →
      (expandCluster (fun q => q) 1 2 wPointsD wLabelsD 0
          (regionQuery (fun q => q) 1 wPointsD 0) 0).getD j none =
        some 0) ∧
    (∀ k, k < wPointsD.length → wLabelsD.getD k none = none →
      (expandCluster (fun q => q) 1 2 wPointsD wLabelsD 0
          (regionQuery (fun q => q) 1 wPointsD 0) 0).getD k none =
        some 0 →
      isCore (fun q => q) 1 2 wPointsD k →
      ∀ j ∈ regionQuery (fun q => q) 1 wPointsD k,
        wLabelsD.getD j none = some (-1) ∨ wLabelsD.getD j none = none →
        (expandCluster (fun q => q) 1 2 wPointsD wLabelsD 0
            (regionQuery (fun q => q) 1 wPointsD 0) 0).getD j none =
          some 0) ∧
    (∀ j, j < wPointsD.length →
      (expandCluster (fun q => q) 1 2 wPointsD wLabelsD 0
          (regionQuery (fun q => q) 1 wPointsD 0) 0).getD j none =
        some 0 →
      wLabelsD.getD j none = some 0 ∨ j = 0 ∨
      j ∈ regionQuery (fun q => q) 1 wPointsD 0 ∨
      ∃ k, k < wPointsD.length ∧ wLabelsD.getD k none = none ∧
        (expandCluster (fun q => q) 1 2 wPointsD wLabelsD 0
            (regionQuery (fun q => q) 1 wPointsD 0) 0).getD k none =
          some 0 ∧
        isCore (fun q => q) 1 2 wPointsD k ∧
        j ∈ regionQuery (fun q => q) 1 wPointsD k)) :=
  ⟨rfl, by decide, by decide,
    dbscan_border_absorption (fun q => q) 1 2 wPointsD wLabelsD 0 0 rfl
      (by decide) (by decide)⟩

/-- Witness for C3: a concrete edge to an absent node is rejected and the
graph is unchanged. -/
theorem addEdge_missing_endpoint_rejected_witness :
    (sampleGraph.addEdge { id := "e2", fromNode := "n1", toNode := "zz" }).2 =
      some ("Cannot add edge: nodes " ++ "n1" ++ " or " ++ "zz" ++
        " not found") ∧
    (sampleGraph.addEdge { id := "e2", fromNode := "n1", toNode := "zz" }).1 =
      sampleGraph ∧
    (sampleGraph.addEdge
      { id := "e2", fromNode := "n1", toNode := "zz" }).1.edgeCount =
      sampleGraph.edgeCount :=
  addEdge_missing_endpoint_rejected sampleGraph
    { id := "e2", fromNode := "n1", toNode := "zz" } (by decide)

end CanvasArchitect
